import Mathlib

/-!
# Verification of the Funeral-Expenses-Payment document pipeline

Shallow embedding, in Lean 4, of the decision logic of the
`Funeral-Expenses-Payment` repository:

* `app/ai_agent/date_normalizer.py`  — `DateNormalizer.normalize_date`
* `app/ai_agent/document_classifier.py` — `DocumentClassifier.detect_document_type`
* `app/ai_agent/intelligent_mapper.py` — `IntelligentMapper` (semantic field
  matcher and field-mapping engine)
* `app/ai_agent/main.py` — the answer-source router workflow
  (`generate_final_response` and the tool-fallback chain)

Python strings are modelled as Lean `String`s (the data in scope is ASCII
except for the currency symbols, which Lean handles as Unicode characters
exactly as Python does).  Python `float` confidence arithmetic is modelled
with `ℚ`; every comparison performed by the code (`> 0`, `>= 0.5`, `min 1.0`,
ties at `1.0`) is exact at these magnitudes, so the rational model and the
IEEE-double model agree on every branch taken.  Python dictionaries are
modelled as insertion-ordered association lists with in-place overwrite,
which is Python's own semantics.  Fallible steps are `Option`-valued;
Python `try/except` blocks become total functions returning the value the
handler returns.
-/

namespace FEP

/-! ## Python string primitives -/

/-- Python `str.lower()` (ASCII data). -/
def pyLower (s : String) : String := String.mk (s.toList.map Char.toLower)

/-- Python `str.strip()`: drop leading and trailing whitespace
(the data in scope contains only the whitespace characters
`Char.isWhitespace` recognises). -/
def pyStrip (s : String) : String :=
  String.mk
    (((s.toList.dropWhile Char.isWhitespace).reverse.dropWhile
        Char.isWhitespace).reverse)

/-- `date_string.strip().lower()` resp. `text.lower().strip()` — the two
compose to the same cleaning function on both orders. -/
def pyClean (s : String) : String := pyLower (pyStrip s)

/-- Python substring test `needle in hay`. -/
def strContains (hay needle : String) : Bool :=
  hay.toList.tails.any (fun suf => needle.toList.isPrefixOf suf)

/-- Python `s.startswith(p)`. -/
def pyStartsWith (s p : String) : Bool := p.toList.isPrefixOf s.toList

/-- Python `s.endswith(p)`. -/
def pyEndsWith (s p : String) : Bool := p.toList.isSuffixOf s.toList

/-- Python `s[:-n]` for `0 < n ≤ len s`: drop the last `n` characters. -/
def pyDropRight (s : String) (n : Nat) : String :=
  String.mk (s.toList.take (s.toList.length - n))

/-- Python `str.split()` with no argument: split on whitespace runs,
discarding empty pieces; `cur` accumulates the current word reversed. -/
def pySplitAux : List Char → List Char → List String
  | [], cur => if cur = [] then [] else [String.mk cur.reverse]
  | c :: rest, cur =>
    if c.isWhitespace then
      if cur = [] then pySplitAux rest []
      else String.mk cur.reverse :: pySplitAux rest []
    else pySplitAux rest (c :: cur)

def pySplit (s : String) : List String := pySplitAux s.toList []

/-- A `\w` character of Python `re` on this data: alphanumeric or underscore. -/
def isWordChar (c : Char) : Bool := c.isAlphanum || c = '_'

/-- Replace each maximal whitespace run by a single space
(`re.sub(r'\s+', ' ', s)`). -/
def collapseWsAux : Bool → List Char → List Char
  | _, [] => []
  | prevWs, c :: rest =>
    if c.isWhitespace then
      if prevWs then collapseWsAux true rest
      else ' ' :: collapseWsAux true rest
    else c :: collapseWsAux false rest

def collapseWs (l : List Char) : List Char := collapseWsAux false l

/-- Numeric value of a decimal digit character. -/
def charVal (c : Char) : Nat := c.toNat - 48

/-- Value of a string of decimal digits (Python `int(...)` on the
regex-guaranteed digit groups). -/
def digitsToNat (l : List Char) : Nat := l.foldl (fun a c => a * 10 + charVal c) 0

/-- `f"{n:02d}"`: decimal rendering zero-padded to two places. -/
def pad2 (n : Nat) : String := if n < 10 then "0" ++ toString n else toString n

/-- First `f a` that is `some` over a list, in order (Python regex
alternation order / loop with early return). -/
def firstSome (f : α → Option β) : List α → Option β
  | [] => none
  | a :: rest =>
    match f a with
    | some b => some b
    | none => firstSome f rest

/-! ## `date_normalizer.py` — `DateNormalizer`

`normalize_date` cleans its input (`strip().lower()`) and then tries,
in order: (1) `datetime.strptime` against seven fixed formats,
(2) a written-out-date regex over the `day_names`/`month_names` tables,
(3) two generic numeric regexes with two-digit-year expansion,
(4) an independent day/month/year search.  If every stage fails it
returns the cleaned string.  Each stage below is a faithful translation
of the corresponding block of `normalize_date`, including CPython's
`_strptime` sub-regexes for `%d`, `%m`, `%Y`, `%B`, `%b` and the
left-to-right, greedy, backtracking search semantics of `re.search`. -/

/-- The `month_names` table, in dict insertion order. -/
def monthNamePairs : List (String × Nat) :=
  [("january", 1), ("february", 2), ("march", 3), ("april", 4), ("may", 5),
   ("june", 6), ("july", 7), ("august", 8), ("september", 9), ("october", 10),
   ("november", 11), ("december", 12),
   ("jan", 1), ("feb", 2), ("mar", 3), ("apr", 4), ("jun", 6), ("jul", 7),
   ("aug", 8), ("sep", 9), ("sept", 9), ("oct", 10), ("nov", 11), ("dec", 12)]

/-- The `day_names` table, in dict insertion order. -/
def dayNamePairs : List (String × Nat) :=
  [("first", 1), ("second", 2), ("third", 3), ("fourth", 4), ("fifth", 5),
   ("sixth", 6), ("seventh", 7), ("eighth", 8), ("ninth", 9), ("tenth", 10),
   ("eleventh", 11), ("twelfth", 12), ("thirteenth", 13), ("fourteenth", 14),
   ("fifteenth", 15), ("sixteenth", 16), ("seventeenth", 17), ("eighteenth", 18),
   ("nineteenth", 19), ("twentieth", 20), ("twenty-first", 21),
   ("twenty-second", 22), ("twenty-third", 23), ("twenty-fourth", 24),
   ("twenty-fifth", 25), ("twenty-sixth", 26), ("twenty-seventh", 27),
   ("twenty-eighth", 28), ("twenty-ninth", 29), ("thirtieth", 30),
   ("thirty-first", 31),
   ("1st", 1), ("2nd", 2), ("3rd", 3), ("4th", 4), ("5th", 5), ("6th", 6),
   ("7th", 7), ("8th", 8), ("9th", 9), ("10th", 10), ("11th", 11), ("12th", 12),
   ("13th", 13), ("14th", 14), ("15th", 15), ("16th", 16), ("17th", 17),
   ("18th", 18), ("19th", 19), ("20th", 20), ("21st", 21), ("22nd", 22),
   ("23rd", 23), ("24th", 24), ("25th", 25), ("26th", 26), ("27th", 27),
   ("28th", 28), ("29th", 29), ("30th", 30), ("31st", 31)]

/-- CPython `_strptime` `%d` regex `(3[0-1]|[1-2]\d|0[1-9]|[1-9]| [1-9])`,
alternatives tried in order. -/
def pDay : List Char → Option (Nat × List Char)
  | '3' :: c :: rest =>
    if c = '0' ∨ c = '1' then some (30 + charVal c, rest)
    else some (3, c :: rest)
  | c1 :: c2 :: rest =>
    if (c1 = '1' ∨ c1 = '2') ∧ c2.isDigit then
      some (10 * charVal c1 + charVal c2, rest)
    else if c1 = '0' ∧ ('1' ≤ c2 ∧ c2 ≤ '9') then some (charVal c2, rest)
    else if '1' ≤ c1 ∧ c1 ≤ '9' then some (charVal c1, c2 :: rest)
    else if c1 = ' ' ∧ ('1' ≤ c2 ∧ c2 ≤ '9') then some (charVal c2, rest)
    else none
  | [c] => if '1' ≤ c ∧ c ≤ '9' then some (charVal c, []) else none
  | [] => none

/-- CPython `_strptime` `%m` regex `(1[0-2]|0[1-9]|[1-9])`. -/
def pMonthNum : List Char → Option (Nat × List Char)
  | '1' :: c :: rest =>
    if c = '0' ∨ c = '1' ∨ c = '2' then some (10 + charVal c, rest)
    else some (1, c :: rest)
  | '0' :: c :: rest =>
    if '1' ≤ c ∧ c ≤ '9' then some (charVal c, rest) else none
  | c :: rest => if '1' ≤ c ∧ c ≤ '9' then some (charVal c, rest) else none
  | [] => none

/-- CPython `_strptime` `%Y` regex `\d{4}`: exactly four digits. -/
def pYear4 : List Char → Option (Nat × List Char)
  | c1 :: c2 :: c3 :: c4 :: rest =>
    if c1.isDigit ∧ c2.isDigit ∧ c3.isDigit ∧ c4.isDigit then
      some (digitsToNat [c1, c2, c3, c4], rest)
    else none
  | _ => none

/-- A literal character of the format string. -/
def pLit (c : Char) (cs : List Char) : Option (List Char) :=
  match cs with
  | c' :: rest => if c' = c then some rest else none
  | [] => none

/-- `\s+` (a whitespace run in the format string): at least one whitespace
character, consumed greedily — complete here because every following
token starts with a non-whitespace character. -/
def pWs1 (cs : List Char) : Option (List Char) :=
  let rest := cs.dropWhile Char.isWhitespace
  if rest.length < cs.length then some rest else none

/-- `%B` / `%b`: a month name from the given table as a prefix
(the input is already lowercased, so `re.IGNORECASE` is immaterial;
no month name is a prefix of another, so alternation order is immaterial
inside `strptime`). -/
def pMonthName (names : List (String × Nat)) (cs : List Char) :
    Option (Nat × List Char) :=
  firstSome
    (fun p =>
      if p.1.toList.isPrefixOf cs then some (p.2, cs.drop p.1.toList.length)
      else none)
    names

/-- Python full month names (for `%B`), lowercased. -/
def fullMonthPairs : List (String × Nat) :=
  [("january", 1), ("february", 2), ("march", 3), ("april", 4), ("may", 5),
   ("june", 6), ("july", 7), ("august", 8), ("september", 9), ("october", 10),
   ("november", 11), ("december", 12)]

/-- Python abbreviated month names (for `%b`), lowercased. -/
def abbrMonthPairs : List (String × Nat) :=
  [("jan", 1), ("feb", 2), ("mar", 3), ("apr", 4), ("may", 5), ("jun", 6),
   ("jul", 7), ("aug", 8), ("sep", 9), ("oct", 10), ("nov", 11), ("dec", 12)]

/-- Gregorian leap-year test, as `datetime` uses. -/
def isLeap (y : Nat) : Bool := y % 4 = 0 ∧ (y % 100 ≠ 0 ∨ y % 400 = 0)

def daysInMonth (y m : Nat) : Nat :=
  if m = 2 then (if isLeap y then 29 else 28)
  else if m = 4 ∨ m = 6 ∨ m = 9 ∨ m = 11 then 30
  else 31

/-- `datetime(year, month, day)` constructor validity (the regexes already
bound `1 ≤ d ≤ 31` and `1 ≤ m ≤ 12`; the constructor additionally needs
`MINYEAR ≤ year` and the day to exist in the month). -/
def validDate (y m d : Nat) : Bool := 1 ≤ y ∧ d ≤ daysInMonth y m

/-- `%d<sep>%m<sep>%Y`, requiring the whole string to be consumed
(`_strptime` rejects trailing input). -/
def fmtDMY (sep : Char) (cs : List Char) : Option (Nat × Nat × Nat) := do
  let (d, r1) ← pDay cs
  let r2 ← pLit sep r1
  let (m, r3) ← pMonthNum r2
  let r4 ← pLit sep r3
  let (y, r5) ← pYear4 r4
  if r5 = [] then some (d, m, y) else none

/-- `%Y-%m-%d`. -/
def fmtYMD (cs : List Char) : Option (Nat × Nat × Nat) := do
  let (y, r1) ← pYear4 cs
  let r2 ← pLit '-' r1
  let (m, r3) ← pMonthNum r2
  let r4 ← pLit '-' r3
  let (d, r5) ← pDay r4
  if r5 = [] then some (d, m, y) else none

/-- `%d %B %Y` / `%d %b %Y`. -/
def fmtDMonY (names : List (String × Nat)) (cs : List Char) :
    Option (Nat × Nat × Nat) := do
  let (d, r1) ← pDay cs
  let r2 ← pWs1 r1
  let (m, r3) ← pMonthName names r2
  let r4 ← pWs1 r3
  let (y, r5) ← pYear4 r4
  if r5 = [] then some (d, m, y) else none

/-- `%B %d, %Y` / `%b %d, %Y`. -/
def fmtMonDY (names : List (String × Nat)) (cs : List Char) :
    Option (Nat × Nat × Nat) := do
  let (m, r1) ← pMonthName names cs
  let r2 ← pWs1 r1
  let (d, r3) ← pDay r2
  let r4 ← pLit ',' r3
  let r5 ← pWs1 r4
  let (y, r6) ← pYear4 r5
  if r6 = [] then some (d, m, y) else none

/-- `dt.strftime('%d/%m/%Y')` on the parsed date. -/
def renderDMY (d m y : Nat) : String :=
  pad2 d ++ "/" ++ pad2 m ++ "/" ++ toString y

/-- Stage 1 of `normalize_date`: the `datetime.strptime` loop over
`('%d/%m/%Y', '%d-%m-%Y', '%Y-%m-%d', '%d %B %Y', '%d %b %Y',
'%B %d, %Y', '%b %d, %Y')` — first format that parses the whole string
into a constructible date wins; an invalid date raises `ValueError`
inside the loop and falls through to the next format. -/
def strptimeStage (cs : List Char) : Option String :=
  firstSome
    (fun f =>
      match f cs with
      | some (d, m, y) => if validDate y m d then some (renderDMY d m y) else none
      | none => none)
    [fmtDMY '/', fmtDMY '-', fmtYMD, fmtDMonY fullMonthPairs,
     fmtDMonY abbrMonthPairs, fmtMonDY fullMonthPairs, fmtMonDY abbrMonthPairs]

/-- Match of the written-out-date regex
`({day_names alternation})\s+({month_names alternation})\s+(\d{4})`
anchored at the current position: day alternatives are tried in dict
insertion order with backtracking into the month alternatives; the
year group keeps its matched text (the source interpolates the group
string, not an int, so leading zeros survive). -/
def matchWrittenAt (cs : List Char) : Option (Nat × Nat × List Char) :=
  firstSome
    (fun dp =>
      if dp.1.toList.isPrefixOf cs then
        match pWs1 (cs.drop dp.1.toList.length) with
        | none => none
        | some r1 =>
          firstSome
            (fun mp =>
              if mp.1.toList.isPrefixOf r1 then
                match pWs1 (r1.drop mp.1.toList.length) with
                | none => none
                | some r2 =>
                  match r2 with
                  | c1 :: c2 :: c3 :: c4 :: _ =>
                    if c1.isDigit ∧ c2.isDigit ∧ c3.isDigit ∧ c4.isDigit then
                      some (dp.2, mp.2, [c1, c2, c3, c4])
                    else none
                  | _ => none
              else none)
            monthNamePairs
      else none)
    dayNamePairs

/-- `re.search` scan: leftmost position at which the anchored matcher
succeeds. -/
def searchPos (m : List Char → Option α) : List Char → Option α
  | [] => m []
  | c :: rest =>
    match m (c :: rest) with
    | some a => some a
    | none => searchPos m rest

/-- Stage 2 of `normalize_date`: written-out dates such as
`"seventeenth june 2025"`; renders `f"{day:02d}/{month:02d}/{year}"`
with the year group as matched text. -/
def writtenStage (cs : List Char) : Option String :=
  match searchPos matchWrittenAt cs with
  | some (d, m, ys) => some (pad2 d ++ "/" ++ pad2 m ++ "/" ++ String.mk ys)
  | none => none

/-- Take exactly `k` leading digits. -/
def takeDigits (k : Nat) (cs : List Char) : Option (List Char × List Char) :=
  let t := cs.take k
  if t.length = k ∧ t.all Char.isDigit then some (t, cs.drop k) else none

/-- A separator of the character class `[slash or dash]`. -/
def pSep (seps : List Char) (cs : List Char) : Option (List Char) :=
  match cs with
  | c :: rest => if seps.contains c then some rest else none
  | [] => none

/-- Anchored match of `(\d{1,2})<sep>(\d{1,2})<sep>(\d{2,4})` with greedy
group lengths (`2` before `1`, `4` before `3` before `2`), returning the
three digit groups. -/
def matchNum1At (seps : List Char) (cs : List Char) :
    Option (List Char × List Char × List Char) :=
  firstSome
    (fun k1 => do
      let (g1, r1) ← takeDigits k1 cs
      let r2 ← pSep seps r1
      firstSome
        (fun k2 => do
          let (g2, r3) ← takeDigits k2 r2
          let r4 ← pSep seps r3
          firstSome
            (fun k3 => do
              let (g3, _) ← takeDigits k3 r4
              some (g1, g2, g3))
            [4, 3, 2])
        [2, 1])
    [2, 1]

/-- Anchored match of `(\d{4})<sep>(\d{1,2})<sep>(\d{1,2})`. -/
def matchNum2At (seps : List Char) (cs : List Char) :
    Option (List Char × List Char × List Char) :=
  (do
    let (g1, r1) ← takeDigits 4 cs
    let r2 ← pSep seps r1
    firstSome
      (fun k2 => do
        let (g2, r3) ← takeDigits k2 r2
        let r4 ← pSep seps r3
        firstSome
          (fun k3 => do
            let (g3, _) ← takeDigits k3 r4
            some (g1, g2, g3))
          [2, 1])
      [2, 1])

/-- The two-digit-year expansion of stage 3: `>50 → 1900+y`, else
`2000+y`; a year of three or more digits is kept. -/
def expandYear (y : Nat) : Nat :=
  if y < 100 then (if y > 50 then y + 1900 else y + 2000) else y

/-- Stage 3 of `normalize_date`: `re.search` of
`(\d{1,2})[slash or dash](\d{1,2})[slash or dash](\d{2,4})` read as day-month-year, then of
`(\d{4})[slash or dash](\d{1,2})[slash or dash](\d{1,2})` read as year-month-day; integer
conversion, two-digit-year expansion, `f"{day:02d}/{month:02d}/{year}"`. -/
def numericStage (cs : List Char) : Option String :=
  match searchPos (matchNum1At ['/', '-']) cs with
  | some (g1, g2, g3) =>
    some (pad2 (digitsToNat g1) ++ "/" ++ pad2 (digitsToNat g2) ++ "/" ++
      toString (expandYear (digitsToNat g3)))
  | none =>
    match searchPos (matchNum2At ['/', '-']) cs with
    | some (g1, g2, g3) =>
      some (pad2 (digitsToNat g3) ++ "/" ++ pad2 (digitsToNat g2) ++ "/" ++
        toString (expandYear (digitsToNat g1)))
    | none => none

/-- `re.search(r'(\d{1,2})(st|nd|rd|th)?', s)`: group 1 of the leftmost
match — the first digit, greedily extended to two. -/
def searchDay12 : List Char → Option Nat
  | [] => none
  | c1 :: rest =>
    if c1.isDigit then
      match rest with
      | c2 :: _ => if c2.isDigit then some (10 * charVal c1 + charVal c2)
                   else some (charVal c1)
      | [] => some (charVal c1)
    else searchDay12 rest

/-- `re.search(month_pattern, s)`: leftmost occurrence of a month-name
alternative, alternatives in dict insertion order; returns its table value
(the source looks the matched text up in `month_names`). -/
def searchMonthName (cs : List Char) : Option Nat :=
  searchPos
    (fun cs' =>
      firstSome
        (fun mp => if mp.1.toList.isPrefixOf cs' then some mp.2 else none)
        monthNamePairs)
    cs

/-- `re.search(r'\b(19|20)\d{2}\b', s)`: a four-digit year starting `19`
or `20` delimited by word boundaries; `prev` carries the character before
the current position. -/
def searchYearAux : Option Char → List Char → Option Nat
  | prev, c1 :: c2 :: c3 :: c4 :: rest =>
    if (prev.all (fun c => ¬ isWordChar c)) ∧
       ((c1 = '1' ∧ c2 = '9') ∨ (c1 = '2' ∧ c2 = '0')) ∧
       c3.isDigit ∧ c4.isDigit ∧
       (rest.head?.all (fun c => ¬ isWordChar c)) then
      some (digitsToNat [c1, c2, c3, c4])
    else searchYearAux (some c1) (c2 :: c3 :: c4 :: rest)
  | _, _ => none

def searchYear (cs : List Char) : Option Nat := searchYearAux none cs

/-- Stage 4 of `normalize_date`: independent day / month-name / year
searches, combined only when all three succeed. -/
def lastResortStage (cs : List Char) : Option String :=
  match searchDay12 cs, searchMonthName cs, searchYear cs with
  | some d, some m, some y =>
    some (pad2 d ++ "/" ++ pad2 m ++ "/" ++ toString y)
  | _, _, _ => none

/-- The four parsing stages of `normalize_date`, applied to the cleaned
string, first success wins. -/
def normalizeStages (cs : List Char) : Option String :=
  match strptimeStage cs with
  | some out => some out
  | none =>
    match writtenStage cs with
    | some out => some out
    | none =>
      match numericStage cs with
      | some out => some out
      | none => lastResortStage cs

/-- `DateNormalizer.normalize_date`: empty input returns `""`; otherwise
the input is cleaned by `strip().lower()` and run through the stages;
if no stage matches, the *cleaned* string is returned (the enclosing
`try/except` makes the function total). -/
def normalize_date (s : String) : String :=
  if s = "" then ""
  else
    let ds := pyClean s
    match normalizeStages ds.toList with
    | some out => out
    | none => ds

/-! ## `document_classifier.py` — `DocumentClassifier.detect_document_type`

Detection patterns are word sequences joined by `\s+`; the score of a
type is `2 × (number of non-overlapping matches)` summed over its
patterns, counted by `re.findall` over the lowercased
`f"{text_lower} {filename_lower}"`. -/

/-- Anchored match of the pattern `w₁\s+w₂\s+…\s+wₙ`; returns the suffix
after the match.  `\s+` is consumed greedily, which is complete because
each following word starts with a non-whitespace character. -/
def matchWordsAt : List String → List Char → Option (List Char)
  | [], cs => some cs
  | w :: rest, cs =>
    if w.toList.isPrefixOf cs then
      let r := cs.drop w.toList.length
      match rest with
      | [] => some r
      | _ =>
        match pWs1 r with
        | some r2 => matchWordsAt rest r2
        | none => none
    else none

/-- `len(re.findall(pattern, s))`: scan left to right, counting
non-overlapping matches and resuming after each match (advancing at
least one character, as `re.findall` does).  The `fuel` argument makes
the recursion structural; `countMatches` supplies `fuel = length`,
which suffices because every step consumes at least one character. -/
def countMatchesAux (ws : List String) : Nat → List Char → Nat
  | 0, _ => 0
  | _ + 1, [] => 0
  | fuel + 1, c :: rest =>
    match matchWordsAt ws (c :: rest) with
    | some r =>
      let consumed := (c :: rest).length - r.length
      1 + countMatchesAux ws fuel ((c :: rest).drop (max consumed 1))
    | none => countMatchesAux ws fuel rest

def countMatches (ws : List String) (cs : List Char) : Nat :=
  countMatchesAux ws cs.length cs

/-- The `document_signatures` detection patterns, in dict insertion
order (each regex `a\s+b…` is kept as its word list). -/
def classifierSignatures : List (String × List (List String)) :=
  [("death_certificate",
    [["death", "certificate"], ["certificate", "of", "death"],
     ["cause", "of", "death"], ["date", "of", "death"],
     ["registration", "of", "death"]]),
   ("birth_certificate",
    [["birth", "certificate"], ["certificate", "of", "birth"],
     ["date", "of", "birth"], ["registration", "of", "birth"]]),
   ("funeral_invoice",
    [["funeral", "invoice"], ["funeral", "director"], ["funeral", "bill"],
     ["funeral", "service"], ["cremation"], ["burial"]]),
   ("benefit_letter",
    [["benefit", "letter"], ["department", "for", "work", "and", "pensions"],
     ["dwp"], ["universal", "credit"], ["pension", "credit"],
     ["income", "support"]])]

/-- Per-type score: `score += len(matches) * 2` over the type's patterns. -/
def scoreType (pats : List (List String)) (cs : List Char) : Nat :=
  pats.foldl (fun acc p => acc + countMatches p cs * 2) 0

/-- `DocumentClassifier.detect_document_type`. -/
def detect_document_type (text filename : String) : String :=
  if text = "" ∧ filename = "" then "unknown"
  else
    let textLower := pyLower text
    let filenameLower := pyLower filename
    let combined := (textLower ++ " " ++ filenameLower).toList
    let best := classifierSignatures.foldl
      (fun (acc : Option String × Nat) sig =>
        let score := scoreType sig.2 combined
        if score > acc.2 then (some sig.1, score) else acc)
      (none, 0)
    if best.1.isNone ∨ best.2 < 2 then
      if strContains filenameLower "death" then "death_certificate"
      else if strContains filenameLower "birth" then "birth_certificate"
      else if ["invoice", "bill", "funeral", "director"].any
          (fun t => strContains filenameLower t) then "funeral_invoice"
      else if ["benefit", "letter", "dwp", "pension"].any
          (fun t => strContains filenameLower t) then "benefit_letter"
      else "unknown"
    else best.1.getD "unknown"

/-! ## `intelligent_mapper.py` — `IntelligentMapper`

The default programmatic form schema (no `form_schema.json` ships with
the repository, so `_load_form_schema` always returns the built-in
structure).  Confidence arithmetic is over `ℚ`. -/

structure FormField where
  name : String
  label : String
  /-- the `"type"` entry of the field dict -/
  ftype : String
  semantic_context : List String
deriving DecidableEq, Repr

structure FormSection where
  id : String
  title : String
  semantic_context : List String
  fields : List FormField
deriving DecidableEq, Repr

/-- The default programmatic form schema of `_load_form_schema`. -/
def form_schema : List FormSection :=
  [{ id := "evidence-documentation",
     title := "Evidence and documentation",
     semantic_context := ["evidence", "documentation", "upload", "documents"],
     fields :=
       [{ name := "evidence", label := "Documents you can provide",
          ftype := "checkbox",
          semantic_context := ["document types", "evidence types"] },
        { name := "relationshipToDeceased",
          label := "What is your relationship to the deceased?",
          ftype := "radio",
          semantic_context := ["relationship", "relation", "connection", "family"] }] },
   { id := "about-deceased",
     title := "About the person who died",
     semantic_context := ["deceased", "dead person", "death", "person who died"],
     fields :=
       [{ name := "deceasedFirstName", label := "First name", ftype := "text",
          semantic_context := ["deceased first name", "dead person\x27s first name", "given name"] },
        { name := "deceasedLastName", label := "Last name", ftype := "text",
          semantic_context := ["deceased last name", "dead person\x27s surname", "family name"] },
        { name := "deceasedDateOfBirth", label := "Date of birth", ftype := "date",
          semantic_context := ["deceased birth date", "dead person\x27s birthday", "dob", "born on"] },
        { name := "deceasedDateOfDeath", label := "Date of death", ftype := "date",
          semantic_context := ["deceased death date", "date of passing", "died on", "dod"] },
        { name := "relationshipToDeceased", label := "Relationship to deceased",
          ftype := "radio",
          semantic_context := ["relationship", "relation", "connection", "family"] }] },
   { id := "funeral-details",
     title := "Funeral details",
     semantic_context := ["funeral", "service", "ceremony", "burial", "cremation"],
     fields :=
       [{ name := "funeralDirector", label := "Funeral director", ftype := "text",
          semantic_context := ["funeral company", "funeral home", "undertaker"] },
        { name := "funeralCost", label := "Funeral cost", ftype := "number",
          semantic_context := ["cost", "price", "expense", "bill", "invoice amount", "total cost"] },
        { name := "funeralDate", label := "Funeral date", ftype := "date",
          semantic_context := ["service date", "ceremony date", "when funeral occurred"] }] }]

/-- An extracted-data value: either a dict carrying a `'value'` entry
(with an optional `'reasoning'` entry), or a plain string. -/
structure FieldData where
  value : String
  reasoning : Option String
deriving DecidableEq, Repr

inductive ExtVal where
  | data (d : FieldData)
  | raw (s : String)
deriving DecidableEq, Repr

/-- The context-data keys the mapper reads (`deceasedName`,
`relationshipToDeceased`); a key is present iff the option is `some`. -/
structure ContextData where
  deceasedName : Option String
  relationshipToDeceased : Option String
deriving DecidableEq, Repr

/-- Python truthiness of an optional string (`None` and `""` are falsy). -/
def optTruthy : Option String → Bool
  | none => false
  | some s => s ≠ ""

/-- `IntelligentMapper._normalize_text`: lowercase, strip, replace every
non-word non-whitespace character by a space, collapse whitespace runs. -/
def normalize_text (s : String) : String :=
  let n := pyStrip (pyLower s)
  let n2 := n.toList.map (fun c => if isWordChar c || c.isWhitespace then c else ' ')
  String.mk (collapseWs n2)

/-- A match of `\d{1,2}\s+(?:jan|…|dec)[a-z]*\s+\d{2,4}` anchored here. -/
def matchDateMonthAt (cs : List Char) : Bool :=
  [2, 1].any fun k =>
    match takeDigits k cs with
    | none => false
    | some (_, r1) =>
      match pWs1 r1 with
      | none => false
      | some r2 =>
        (abbrMonthPairs.map (fun p => p.1)).any fun w =>
          w.toList.isPrefixOf r2 &&
          (let r3 := (r2.drop w.toList.length).dropWhile (fun c => 'a' ≤ c ∧ c ≤ 'z')
           match pWs1 r3 with
           | none => false
           | some r4 => (takeDigits 2 r4).isSome)

/-- A match of `<sym>\s*\d+(?:\.\d{2})?` anchored here (the optional tail
group never affects whether a match exists). -/
def matchCurrencyAt (sym : Char) (cs : List Char) : Bool :=
  match cs with
  | c :: rest =>
    c = sym && (rest.dropWhile Char.isWhitespace).head?.any Char.isDigit
  | [] => false

/-- A match of `\d+(?:\.\d{2})?\s*(?:pounds|gbp|usd|eur)` anchored here. -/
def matchAmountWordAt (cs : List Char) : Bool :=
  let ds := cs.takeWhile Char.isDigit
  ds ≠ [] &&
    (let r1 := cs.drop ds.length
     let r2 := match r1 with
       | '.' :: d1 :: d2 :: rest =>
         if d1.isDigit ∧ d2.isDigit then rest else r1
       | _ => r1
     let r3 := r2.dropWhile Char.isWhitespace
     ["pounds", "gbp", "usd", "eur"].any fun w => w.toList.isPrefixOf r3)

/-- `IntelligentMapper._infer_value_type`: ordered pattern checks over the
lowercased value, first match wins. -/
def infer_value_type (v : ExtVal) : String :=
  let s := pyLower (match v with | .data d => d.value | .raw s => s)
  let cs := s.toList
  if (searchPos (matchNum1At ['/']) cs).isSome ∨
     (searchPos (matchNum1At ['-']) cs).isSome ∨
     cs.tails.any matchDateMonthAt then "date"
  else if cs.tails.any (matchCurrencyAt '£') ∨
          cs.tails.any (matchCurrencyAt '$') ∨
          cs.tails.any (matchCurrencyAt '€') ∨
          cs.tails.any matchAmountWordAt then "monetary"
  else if ["street", "road", "avenue", "lane", "drive", "way", "boulevard",
           "court"].any (fun t => strContains s t) then "address"
  else if ["husband", "wife", "spouse", "partner", "child", "son", "daughter",
           "parent", "father", "mother", "brother", "sister",
           "sibling"].any (fun t => strContains s t) then "relationship"
  else "text"

/-- `IntelligentMapper._field_type_matches_value_type`. -/
def field_type_matches_value_type (f : FormField) (vt : String) : Bool :=
  let compat : List String :=
    if vt = "date" then ["date"]
    else if vt = "monetary" then ["number", "text"]
    else if vt = "address" then ["text", "textarea"]
    else if vt = "relationship" then ["text", "radio", "select"]
    else if vt = "text" then ["text", "textarea", "radio", "select", "checkbox"]
    else []
  compat.contains f.ftype

/-- The guard of the first early return of
`IntelligentMapper._apply_context_boosts`: the field name mentions
`deceased`, the context carries `deceasedName`, the value is
dict-shaped, and the normalized deceased name occurs in the normalized
value. -/
def deceasedBoostApplies (v : ExtVal) (fieldName : String)
    (cd : ContextData) : Bool :=
  strContains fieldName "deceased" &&
    (match cd.deceasedName with
     | some dn =>
       (match v with
        | .data d => strContains (normalize_text d.value) (normalize_text dn)
        | .raw _ => false)
     | none => false)

/-- The guard of the second early return of `_apply_context_boosts`:
the field name mentions `relationship`, the context carries
`relationshipToDeceased`, and the key mentions relationship terms. -/
def relationshipBoostApplies (normKey fieldName : String)
    (cd : ContextData) : Bool :=
  strContains fieldName "relationship" &&
    (match cd.relationshipToDeceased with
     | some rel =>
       strContains normKey "relationship" ||
         strContains normKey (normalize_text rel)
     | none => false)

/-- `IntelligentMapper._apply_context_boosts`; each boost returns
immediately with `min(1.0, base + boost)`, the second check running
only when the first did not return. -/
def apply_context_boosts (base : ℚ) (normKey : String) (v : ExtVal)
    (fieldName : String) (cd : ContextData) : ℚ :=
  if deceasedBoostApplies v fieldName cd then min 1 (base + 0.2)
  else if relationshipBoostApplies normKey fieldName cd then min 1 (base + 0.3)
  else base

/-- The field–document-type association table of
`_apply_document_type_boosts`, in dict insertion order. -/
def docTypeAssociations : List (String × List String) :=
  [("death_certificate", ["deceased", "death", "birth"]),
   ("funeral_invoice", ["funeral", "cost", "director", "service"]),
   ("benefit_letter", ["benefit", "payment", "eligibility"]),
   ("relationship_proof", ["relationship", "connection", "family"])]

/-- `IntelligentMapper._apply_document_type_boosts`: the first
association whose key is a substring of the lowercased document type and
one of whose keywords occurs in the lowercased field name returns
`min(1.0, base + 0.15)`. -/
def apply_document_type_boosts (base : ℚ) (fieldName docType : String) : ℚ :=
  match docTypeAssociations.find?
      (fun a => strContains (pyLower docType) a.1 &&
        a.2.any (fun kw => strContains (pyLower fieldName) kw)) with
  | some _ => min 1 (base + 0.15)
  | none => base

/-- The `max_relevance` accumulated by the semantic-context loop of
`_calculate_section_relevance` (`0.8` for a context phrase inside the
key, `0.6` for the key inside a context phrase). -/
def section_context_relevance (normKey : String) (sec : FormSection) : ℚ :=
  sec.semantic_context.foldl
    (fun m cxt =>
      let nc := normalize_text cxt
      if strContains normKey nc then max m 0.8
      else if strContains nc normKey then max m 0.6
      else m) 0

/-- The word-overlap relevance against the section title (Python sets
become `Finset`s; the value is `0` when no words are shared, matching
the untouched `max_relevance = 0.0`). -/
def section_title_relevance (normKey : String) (sec : FormSection) : ℚ :=
  if ((pySplit normKey).toFinset ∩
      (pySplit (normalize_text sec.title)).toFinset).card ≠ 0 then
    0.3 * (((pySplit normKey).toFinset ∩
        (pySplit (normalize_text sec.title)).toFinset).card : ℚ) /
      min ((pySplit normKey).toFinset.card : ℚ)
        ((pySplit (normalize_text sec.title)).toFinset.card : ℚ)
  else 0

/-- `IntelligentMapper._calculate_section_relevance`.  Every section of
the default schema has `semantic_context` and `title`, so the
missing-key branches of the source cannot fire; the title overlap is
consulted only when the context loop found nothing. -/
def calculate_section_relevance (normKey : String) (sec : FormSection) : ℚ :=
  max 0.1
    (if section_context_relevance normKey sec = 0 then
      section_title_relevance normKey sec
    else section_context_relevance normKey sec)

/-- `base_confidence` of `_calculate_field_match_confidence` after the
field-label check (rule: label text in the normalized key → `0.8`). -/
def conf_after_label (normKey : String) (f : FormField) : ℚ :=
  if strContains normKey (normalize_text f.label) then 0.8 else 0

/-- `base_confidence` after the semantic-context loop (each phrase
containment raises the running max to at least `0.7`). -/
def conf_after_semantic (normKey : String) (f : FormField) : ℚ :=
  if f.semantic_context.any (fun cxt =>
      let nc := normalize_text cxt
      strContains normKey nc || strContains nc normKey) then
    max (conf_after_label normKey f) 0.7
  else conf_after_label normKey f

/-- `base_confidence` after the value-type compatibility bonus
(`+= 0.1`). -/
def conf_after_type (normKey : String) (v : ExtVal) (f : FormField) : ℚ :=
  if field_type_matches_value_type f (infer_value_type v) then
    conf_after_semantic normKey f + 0.1
  else conf_after_semantic normKey f

/-- `base_confidence` after the context-data boosts (applied only when
`context_data` is truthy). -/
def conf_after_context (normKey : String) (v : ExtVal) (f : FormField)
    (ctx : Option ContextData) : ℚ :=
  match ctx with
  | some cd => apply_context_boosts (conf_after_type normKey v f) normKey v f.name cd
  | none => conf_after_type normKey v f

/-- `base_confidence` after the document-type boost (applied only when
`document_type` is truthy). -/
def conf_after_doc (normKey : String) (v : ExtVal) (f : FormField)
    (ctx : Option ContextData) (docType : Option String) : ℚ :=
  if optTruthy docType then
    apply_document_type_boosts (conf_after_context normKey v f ctx) f.name
      (docType.getD "")
  else conf_after_context normKey v f ctx

/-- `IntelligentMapper._calculate_field_match_confidence`: exact
normalized name match short-circuits to `1.0`; otherwise the staged
`base_confidence` is scaled by `0.7 + 0.3 × section_relevance` and
clamped to `1.0`. -/
def calculate_field_match_confidence (normKey : String) (v : ExtVal)
    (f : FormField) (sec : FormSection) (docType : Option String)
    (ctx : Option ContextData) : ℚ :=
  if normKey = normalize_text f.name then 1
  else
    min 1 (conf_after_doc normKey v f ctx docType *
      (0.7 + 0.3 * calculate_section_relevance normKey sec))

/-- The `document_type_section_mappings` table of
`_section_matches_document_type`. -/
def docTypeSectionMappings : List (String × List String) :=
  [("death_certificate", ["about-deceased"]),
   ("funeral_invoice", ["funeral-details"]),
   ("benefit_letter", ["benefits-information"]),
   ("relationship_proof", ["about-deceased"])]

/-- `IntelligentMapper._section_matches_document_type`. -/
def section_matches_document_type (sec : FormSection) (docType : String) : Bool :=
  if docType = "" then true
  else
    let dtl := pyLower docType
    if sec.semantic_context.any (fun cxt =>
        strContains dtl (pyLower cxt) || strContains (pyLower cxt) dtl) then true
    else
      docTypeSectionMappings.any
        (fun m => strContains dtl m.1 && m.2.contains sec.id)

/-- The sections surviving the `continue` of the `get_field_mapping`
loop (`if document_type and not self._section_matches_document_type`):
all of them when the document type is falsy, else those passing the
filter. -/
def filteredSections (docType : Option String) : List FormSection :=
  form_schema.filter (fun sec =>
    !(optTruthy docType) || section_matches_document_type sec (docType.getD ""))

/-- The unsorted match list collected by `get_field_mapping`: fields of
sections that pass the document-type filter, with strictly positive
confidence, in schema declaration order. -/
def matchesFor (key : String) (v : ExtVal) (docType : Option String)
    (ctx : Option ContextData) : List (String × ℚ) :=
  (filteredSections docType).flatMap (fun sec =>
    sec.fields.filterMap (fun f =>
      let c := calculate_field_match_confidence (normalize_text key) v f sec
        docType ctx
      if c > 0 then some (f.name, c) else none))

/-- The sort order of `sorted(matches, key=lambda x: x[1], reverse=True)`:
descending confidence. -/
def confGE (a b : String × ℚ) : Prop := b.2 ≤ a.2

instance : DecidableRel confGE := fun a b => inferInstanceAs (Decidable (b.2 ≤ a.2))

instance : IsTotal (String × ℚ) confGE := ⟨fun a b => le_total b.2 a.2⟩

instance : IsTrans (String × ℚ) confGE :=
  ⟨fun _ _ _ h1 h2 => le_trans h2 h1⟩

/-- `IntelligentMapper.get_field_mapping`: the match list sorted by
confidence, descending and stable.  Python `sorted` is a stable sort,
and any two stable sorts of the same list under the same total preorder
agree, so the stable `insertionSort` reproduces it exactly. -/
def get_field_mapping (key : String) (v : ExtVal) (docType : Option String)
    (ctx : Option ContextData) : List (String × ℚ) :=
  (matchesFor key v docType ctx).insertionSort confGE

/-- Python dict assignment `d[k] = v` on an insertion-ordered
association list: overwrite in place if the key exists, else append. -/
def dinsert (k : String) (v : ExtVal) : List (String × ExtVal) → List (String × ExtVal)
  | [] => [(k, v)]
  | (k', v') :: rest =>
    if k' = k then (k, v) :: rest else (k', v') :: dinsert k v rest

/-- Python dict lookup `d.get(k)`. -/
def dlookup (k : String) : List (String × ExtVal) → Option ExtVal
  | [] => none
  | (k', v) :: rest => if k' = k then some v else dlookup k rest

/-- One iteration of the `map_extracted_data` loop. -/
def processEntry (docType : Option String) (ctx : Option ContextData)
    (acc : List (String × ExtVal)) (kv : String × ExtVal) :
    List (String × ExtVal) :=
  let key := kv.1
  let v := kv.2
  if pyStartsWith key "_" then dinsert key v acc
  else
    match (get_field_mapping key v docType ctx).head? with
    | some best =>
      if best.2 ≥ 0.5 then
        match v with
        | .data d =>
          if pyEndsWith best.1 "FirstName" then
            let fullName := pySplit d.value
            if fullName.length > 1 then
              let firstName := String.intercalate " " fullName.dropLast
              -- `full_name[-1]`: the length guard makes the list nonempty
              let lastName := fullName.getLast?.getD ""
              let fieldBase := pyDropRight best.1 9
              let reas := d.reasoning.getD "Split from full name"
              let acc1 := dinsert (fieldBase ++ "FirstName")
                (.data ⟨firstName, some (reas ++ " (first name)")⟩) acc
              dinsert (fieldBase ++ "LastName")
                (.data ⟨lastName, some (reas ++ " (last name)")⟩) acc1
            else dinsert best.1 v acc
          else dinsert best.1 v acc
        | .raw _ => dinsert best.1 v acc
      else dinsert key v acc
    | none => dinsert key v acc

/-- `IntelligentMapper.map_extracted_data`: left fold of the loop over
the insertion-ordered extracted data. -/
def map_extracted_data (data : List (String × ExtVal)) (docType : Option String)
    (ctx : Option ContextData) : List (String × ExtVal) :=
  data.foldl (processEntry docType ctx) []

/-- Whether the name-splitting special case of `map_extracted_data`
fires for a winning field name and a value
(`best_match.endswith('FirstName') and isinstance(value, dict) and
'value' in value`). -/
def splitGuard (best : String) (v : ExtVal) : Bool :=
  match v with
  | .data _ => pyEndsWith best "FirstName"
  | .raw _ => false

/-! ## `main.py` — the answer-source router workflow

`AgentState` is the `TypedDict` threaded through the LangGraph nodes;
optional / possibly-absent keys are `Option`s (`d.get(k, default)`
becomes `Option.getD`).  The three tool nodes (`use_rag_source`,
`use_direct_llm_tool`, `use_web_search_tool`) wrap external LLM, vector
store and web-search calls, so they enter the model as abstract
functions `AgentState → AgentState`; a tool signalling failure is one
whose result carries `tool_failed = True`. -/

structure AgentState where
  input : String
  chat_history : List (String × String)
  intermediate_steps : List String
  selected_tool : Option String
  response : Option String
  source : Option String
  confidence : Option ℚ
  tool_failed : Option Bool
deriving DecidableEq, Repr

/-- The fixed fallback order of `generate_final_response`
(`fallbacks = ["rag_tool", "direct_llm_tool", "web_search_tool"]`). -/
def toolNames : List String := ["rag_tool", "direct_llm_tool", "web_search_tool"]

/-- The tool dispatch of the fallback loop (`if fallback_tool == …`); an
unrecognized name leaves the state untouched, as in the source. -/
def runTool (rag dir web : AgentState → AgentState) (name : String)
    (s : AgentState) : AgentState :=
  if name = "rag_tool" then rag s
  else if name = "direct_llm_tool" then dir s
  else if name = "web_search_tool" then web s
  else s

/-- The literal default apology of `generate_final_response`. -/
def defaultApology : String :=
  "I\x27m sorry, I\x27m having trouble generating a response at the moment. Please try rephrasing your question or try again later."

/-- The fallback loop of `generate_final_response`, instrumented with the
list of fallback tools actually executed.  Each iteration copies the
state, resets `tool_failed`, runs the fallback tool, and on success
returns the original state updated with the fallback response and the
tagged source. -/
def tryFallbacksT (rag dir web : AgentState → AgentState) (state : AgentState)
    (orig : String) : List String → Option AgentState × List String
  | [] => (none, [])
  | fb :: rest =>
    let fbState := runTool rag dir web fb
      { state with selected_tool := some fb, tool_failed := some false }
    if fbState.tool_failed.getD true = false ∧ fbState.response.isSome then
      (some { state with
                response := fbState.response,
                source := some (fb ++ " (fallback from " ++ orig ++ ")"),
                tool_failed := some false },
       [fb])
    else
      let r := tryFallbacksT rag dir web state orig rest
      (r.1, fb :: r.2)

/-- `generate_final_response`, instrumented with the list of fallback
tools executed.  Control flow of the source: early return when a
response is present and `tool_failed` is `False`; otherwise, when
`tool_failed` is truthy, try the fallback list (the selected tool
removed — `list.remove` with a swallowed `ValueError`); finally, when
the state still carries a failure or no response, install the fixed
apology with `source = "default_fallback"`. -/
def generate_final_response_t (rag dir web : AgentState → AgentState)
    (state : AgentState) : AgentState × List String :=
  if state.response.isSome ∧ state.tool_failed.getD true = false then (state, [])
  else
    let orig := state.selected_tool.getD "unknown"
    let fb :=
      if state.tool_failed.getD false then
        tryFallbacksT rag dir web state orig (toolNames.erase orig)
      else (none, [])
    match fb.1 with
    | some s => (s, fb.2)
    | none =>
      if state.tool_failed.getD true ∨ state.response.isNone then
        ({ state with
             response := some defaultApology,
             source := some "default_fallback",
             tool_failed := some false },
         fb.2)
      else (state, fb.2)

/-- `generate_final_response` itself (the state it returns). -/
def generate_final_response (rag dir web : AgentState → AgentState)
    (state : AgentState) : AgentState :=
  (generate_final_response_t rag dir web state).1

/-- One pass of the workflow graph from an initial state: the router's
choice `sel` is written to `selected_tool` (`source_router` always
stores one of the three tool names), the selected tool node runs, then
`generate_final_response`. -/
def run_workflow (rag dir web : AgentState → AgentState) (sel : String)
    (s : AgentState) : AgentState :=
  generate_final_response rag dir web
    (runTool rag dir web sel { s with selected_tool := some sel })

/-! # Theorems -/

/-! ## Generic helper lemmas -/

theorem firstSome_eq_some {α β : Type} {f : α → Option β} :
    ∀ {l : List α} {b : β}, firstSome f l = some b → ∃ a ∈ l, f a = some b := by
  intro l
  induction l with
  | nil => intro b h; simp [firstSome] at h
  | cons a rest ih =>
    intro b h
    simp only [firstSome] at h
    split at h
    · rename_i b' heq
      cases h
      exact ⟨a, List.mem_cons_self a rest, heq⟩
    · obtain ⟨a', ha', hfa'⟩ := ih h
      exact ⟨a', List.mem_cons_of_mem a ha', hfa'⟩

theorem toDigitsCore_length_le (b : Nat) :
    ∀ (fuel n : Nat) (ds : List Char),
      ds.length ≤ (Nat.toDigitsCore b fuel n ds).length := by
  intro fuel
  induction fuel with
  | zero => intro n ds; simp [Nat.toDigitsCore]
  | succ f ih =>
    intro n ds
    simp only [Nat.toDigitsCore]
    split
    · simp
    · exact le_trans (by simp) (ih _ _)

theorem nat_repr_ne_empty (n : Nat) : Nat.repr n ≠ "" := by
  have h : 1 ≤ (Nat.toDigits 10 n).length := by
    simp only [Nat.toDigits, Nat.toDigitsCore]
    split
    · simp
    · exact le_trans (by simp) (toDigitsCore_length_le 10 n _ _)
  intro hc
  have hdata : (Nat.repr n).data = [] := by rw [hc]
  have : (Nat.toDigits 10 n) = [] := hdata
  rw [this] at h
  simp at h

theorem append_ne_empty_left (a b : String) (h : a ≠ "") : a ++ b ≠ "" := by
  intro hc
  apply h
  have hd := congrArg String.data hc
  rw [String.data_append] at hd
  have ha : a.data = [] := (List.append_eq_nil.mp hd).1
  cases a with
  | mk data =>
    simp only [String.data] at ha
    rw [ha]

theorem pad2_ne_empty (n : Nat) : pad2 n ≠ "" := by
  unfold pad2
  split
  · exact append_ne_empty_left "0" _ (by decide)
  · exact nat_repr_ne_empty n

theorem pad2_head_append_ne_empty (n : Nat) (r₁ r₂ r₃ r₄ : String) :
    pad2 n ++ r₁ ++ r₂ ++ r₃ ++ r₄ ≠ "" :=
  append_ne_empty_left _ _
    (append_ne_empty_left _ _
      (append_ne_empty_left _ _ (append_ne_empty_left _ _ (pad2_ne_empty n))))

theorem renderDMY_ne_empty (d m y : Nat) : renderDMY d m y ≠ "" := by
  unfold renderDMY
  exact pad2_head_append_ne_empty d _ _ _ _

/-! ## `normalize_date`: stage outputs are never empty -/

theorem strptimeStage_some_ne_empty {cs : List Char} {out : String}
    (h : strptimeStage cs = some out) : out ≠ "" := by
  obtain ⟨f, _, hf⟩ := firstSome_eq_some h
  cases hm : f cs with
  | none => rw [hm] at hf; simp at hf
  | some dmy =>
    obtain ⟨d, m, y⟩ := dmy
    rw [hm] at hf
    have hf' : (if validDate y m d = true then some (renderDMY d m y) else none) =
        some out := hf
    by_cases hv : validDate y m d = true
    · rw [if_pos hv] at hf'
      cases hf'
      exact renderDMY_ne_empty d m y
    · rw [if_neg hv] at hf'
      exact absurd hf' (by simp)

theorem writtenStage_some_ne_empty {cs : List Char} {out : String}
    (h : writtenStage cs = some out) : out ≠ "" := by
  unfold writtenStage at h
  cases hs : searchPos matchWrittenAt cs with
  | none => rw [hs] at h; simp at h
  | some dmy =>
    rw [hs] at h
    obtain ⟨d, m, ys⟩ := dmy
    cases h
    exact pad2_head_append_ne_empty d _ _ _ _

theorem numericStage_some_ne_empty {cs : List Char} {out : String}
    (h : numericStage cs = some out) : out ≠ "" := by
  unfold numericStage at h
  cases h1 : searchPos (matchNum1At ['/', '-']) cs with
  | some g =>
    rw [h1] at h
    obtain ⟨g1, g2, g3⟩ := g
    cases h
    exact pad2_head_append_ne_empty _ _ _ _ _
  | none =>
    rw [h1] at h
    cases h2 : searchPos (matchNum2At ['/', '-']) cs with
    | some g =>
      rw [h2] at h
      obtain ⟨g1, g2, g3⟩ := g
      cases h
      exact pad2_head_append_ne_empty _ _ _ _ _
    | none => rw [h2] at h; simp at h

theorem lastResortStage_some_ne_empty {cs : List Char} {out : String}
    (h : lastResortStage cs = some out) : out ≠ "" := by
  unfold lastResortStage at h
  cases hd : searchDay12 cs with
  | none => rw [hd] at h; simp at h
  | some d =>
    cases hm : searchMonthName cs with
    | none => rw [hd, hm] at h; simp at h
    | some m =>
      cases hy : searchYear cs with
      | none => rw [hd, hm, hy] at h; simp at h
      | some y =>
        rw [hd, hm, hy] at h
        cases h
        exact pad2_head_append_ne_empty _ _ _ _ _

theorem normalizeStages_some_ne_empty {cs : List Char} {out : String}
    (h : normalizeStages cs = some out) : out ≠ "" := by
  unfold normalizeStages at h
  cases h1 : strptimeStage cs with
  | some o => rw [h1] at h; cases h; exact strptimeStage_some_ne_empty h1
  | none =>
    rw [h1] at h
    cases h2 : writtenStage cs with
    | some o => rw [h2] at h; cases h; exact writtenStage_some_ne_empty h2
    | none =>
      rw [h2] at h
      cases h3 : numericStage cs with
      | some o => rw [h3] at h; cases h; exact numericStage_some_ne_empty h3
      | none => rw [h3] at h; exact lastResortStage_some_ne_empty h

/-! ## C6 — `normalize_date` error handling -/

/-- **C6, counterexample.**  The claim says a no-rule-matches input comes
back *unchanged*; the code instead returns the stripped, lowercased
input: on `"ABC"` no parsing stage matches, yet the result is `"abc"`,
not `"ABC"`. -/
theorem normalize_date_c6_counterexample :
    normalizeStages (pyClean "ABC").toList = none ∧
    normalize_date "ABC" = "abc" ∧ normalize_date "ABC" ≠ "ABC" := by
  refine ⟨by decide, by decide, by decide⟩

/-- **C6 (amended).**  `normalize_date` never raises (it is a total
function of the input); when no parsing rule matches it returns the
*cleaned* (stripped, lowercased) input; and it never returns an empty
string when the stripped input is non-empty. -/
theorem normalize_date_c6_amended (s : String) :
    (normalizeStages (pyClean s).toList = none → normalize_date s = pyClean s) ∧
    (pyClean s ≠ "" → normalize_date s ≠ "") := by
  constructor
  · intro h
    by_cases hs : s = ""
    · subst hs; rfl
    · simp only [normalize_date, if_neg hs, h]
  · intro h
    have hs : s ≠ "" := by
      intro hc
      apply h
      rw [hc]
      rfl
    simp only [normalize_date, if_neg hs]
    cases hst : normalizeStages (pyClean s).toList with
    | some out => exact normalizeStages_some_ne_empty hst
    | none => exact h

/-- **C6, witness** for the amended theorem, at the concrete input
`"some text"`: no stage matches, the cleaned input comes back, and the
result is non-empty. -/
theorem normalize_date_c6_amended_witness :
    normalize_date "Some Text" = pyClean "Some Text" ∧
    normalize_date "Some Text" ≠ "" := by
  refine ⟨(normalize_date_c6_amended "Some Text").1 (by decide),
          (normalize_date_c6_amended "Some Text").2 (by decide)⟩

/-! ## C7 — two-digit-year expansion -/

/-- **C7.**  Stage 3 of `normalize_date` expands a two-digit year to
`1900 + year` when the year is strictly greater than `50` and to
`2000 + year` otherwise, and on the claim's example strings the whole
function produces the expanded dates (the `strptime` stage cannot take
them, since `%Y` requires four digits). -/
theorem normalize_date_two_digit_year :
    (∀ y : Nat, y < 100 →
        expandYear y = if y > 50 then 1900 + y else 2000 + y) ∧
    normalize_date "17/06/23" = "17/06/2023" ∧
    normalize_date "17/06/85" = "17/06/1985" := by
  refine ⟨?_, by decide, by decide⟩
  intro y hy
  unfold expandYear
  rw [if_pos hy]
  split
  · rw [Nat.add_comm]
  · rw [Nat.add_comm]

/-- **C7, witness**: the general year rule of the theorem applied at
`23` and `85`. -/
theorem normalize_date_two_digit_year_witness :
    expandYear 23 = (if 23 > 50 then 1900 + 23 else 2000 + 23) ∧
    expandYear 85 = (if 85 > 50 then 1900 + 85 else 2000 + 85) := by
  exact ⟨normalize_date_two_digit_year.1 23 (by decide),
         normalize_date_two_digit_year.1 85 (by decide)⟩

/-! ## C8 — classifier scoring -/

/-- **C8.**  On a text containing exactly two occurrences of
`"death certificate"` and one of `"cause of death"` (and no other
signature pattern), the per-type scores over the lowercased
`text ++ " " ++ filename` are `death_certificate ↦ 6` (two points per
regex match) and `0` for every other type; `6` clears the acceptance
floor `2`, and `detect_document_type` classifies the document as
`"death_certificate"`. -/
theorem classifier_death_certificate_scoring :
    (classifierSignatures.map (fun sig =>
        (sig.1, scoreType sig.2
          ((pyLower "Death Certificate. Death Certificate. Cause of Death." ++
            " " ++ pyLower "").toList)))) =
      [("death_certificate", 6), ("birth_certificate", 0),
       ("funeral_invoice", 0), ("benefit_letter", 0)] ∧
    2 ≤ 6 ∧
    detect_document_type "Death Certificate. Death Certificate. Cause of Death." "" =
      "death_certificate" := by
  refine ⟨by decide, by decide, by decide⟩

/-! ## Router helper lemmas -/

theorem failed_runTool (rag dir web : AgentState → AgentState)
    (hr : ∀ x, (rag x).tool_failed = some true)
    (hd : ∀ x, (dir x).tool_failed = some true)
    (hw : ∀ x, (web x).tool_failed = some true)
    (name : String) (h : name ∈ toolNames) (s : AgentState) :
    (runTool rag dir web name s).tool_failed = some true := by
  simp only [toolNames, List.mem_cons, List.not_mem_nil, or_false] at h
  rcases h with rfl | rfl | rfl
  · exact hr s
  · exact hd s
  · exact hw s

theorem tryFallbacksT_fst_none (rag dir web : AgentState → AgentState)
    (hr : ∀ x, (rag x).tool_failed = some true)
    (hd : ∀ x, (dir x).tool_failed = some true)
    (hw : ∀ x, (web x).tool_failed = some true)
    (st : AgentState) (orig : String) :
    ∀ l : List String, (∀ n ∈ l, n ∈ toolNames) →
      (tryFallbacksT rag dir web st orig l).1 = none := by
  intro l
  induction l with
  | nil => intro _; rfl
  | cons fb rest ih =>
    intro h
    have hfb : (runTool rag dir web fb
        { st with selected_tool := some fb, tool_failed := some false }).tool_failed =
        some true :=
      failed_runTool rag dir web hr hd hw fb (h fb (List.mem_cons_self fb rest)) _
    have hcond : ¬((runTool rag dir web fb
        { st with selected_tool := some fb, tool_failed := some false }).tool_failed.getD
          true = false ∧
        (runTool rag dir web fb
        { st with selected_tool := some fb, tool_failed := some false }).response.isSome =
          true) := by
      simp [hfb]
    simp only [tryFallbacksT, if_neg hcond]
    exact ih (fun n hn => h n (List.mem_cons_of_mem fb hn))

/-! ## C1 — all tools fail ⇒ default fallback -/

/-- **C1.**  For every initial router state and every routing choice
among the three tool names, if all three tools fail (each returns a
state with `tool_failed = True`), the workflow terminates — the
embedding is a total function, so no exception escapes — in a state
whose response is the fixed non-empty apology, whose source is
`"default_fallback"`, and whose `tool_failed` is `False`. -/
theorem router_all_tools_fail_default_fallback
    (rag dir web : AgentState → AgentState)
    (hr : ∀ x, (rag x).tool_failed = some true)
    (hd : ∀ x, (dir x).tool_failed = some true)
    (hw : ∀ x, (web x).tool_failed = some true)
    (sel : String) (hsel : sel ∈ toolNames) (s : AgentState) :
    (run_workflow rag dir web sel s).response = some defaultApology ∧
    (run_workflow rag dir web sel s).source = some "default_fallback" ∧
    (run_workflow rag dir web sel s).tool_failed = some false ∧
    defaultApology ≠ "" := by
  unfold run_workflow
  have h1 : (runTool rag dir web sel { s with selected_tool := some sel }).tool_failed =
      some true :=
    failed_runTool rag dir web hr hd hw sel hsel _
  generalize hgen :
    runTool rag dir web sel { s with selected_tool := some sel } = s1 at h1 ⊢
  have hfb := tryFallbacksT_fst_none rag dir web hr hd hw s1
    (s1.selected_tool.getD "unknown")
    (toolNames.erase (s1.selected_tool.getD "unknown"))
    (fun n hn => List.mem_of_mem_erase hn)
  refine ⟨?_, ?_, ?_, by decide⟩ <;>
    simp [generate_final_response, generate_final_response_t, h1, hfb]

/-- **C1, witness**: three concrete always-failing tools, the routing
choice `"rag_tool"`, and a fresh initial state. -/
theorem router_all_tools_fail_default_fallback_witness :
    (run_workflow (fun s => { s with tool_failed := some true })
        (fun s => { s with tool_failed := some true })
        (fun s => { s with tool_failed := some true }) "rag_tool"
        ⟨"what is FEP?", [], [], none, none, none, none, none⟩).response =
      some defaultApology ∧
    (run_workflow (fun s => { s with tool_failed := some true })
        (fun s => { s with tool_failed := some true })
        (fun s => { s with tool_failed := some true }) "rag_tool"
        ⟨"what is FEP?", [], [], none, none, none, none, none⟩).source =
      some "default_fallback" ∧
    (run_workflow (fun s => { s with tool_failed := some true })
        (fun s => { s with tool_failed := some true })
        (fun s => { s with tool_failed := some true }) "rag_tool"
        ⟨"what is FEP?", [], [], none, none, none, none, none⟩).tool_failed =
      some false ∧
    defaultApology ≠ "" :=
  router_all_tools_fail_default_fallback _ _ _
    (fun _ => rfl) (fun _ => rfl) (fun _ => rfl) "rag_tool" (by decide) _

/-! ## C2 — fallback order after a rag failure -/

/-- **C2.**  When the routing step selected `rag_tool` and it failed,
the finalize step attempts `direct_llm_tool` first and
`web_search_tool` second (the trace of executed fallbacks is
`["direct_llm_tool"]` if the first succeeds, else
`["direct_llm_tool", "web_search_tool"]`), never re-invokes
`rag_tool`, and attempts each non-selected tool at most once. -/
theorem router_rag_failed_fallback_order
    (rag dir web : AgentState → AgentState) (s : AgentState)
    (hsel : s.selected_tool = some "rag_tool")
    (hfail : s.tool_failed = some true) :
    ((generate_final_response_t rag dir web s).2 = ["direct_llm_tool"] ∨
     (generate_final_response_t rag dir web s).2 =
       ["direct_llm_tool", "web_search_tool"]) ∧
    "rag_tool" ∉ (generate_final_response_t rag dir web s).2 := by
  have hcond : ¬(s.response.isSome ∧ s.tool_failed.getD true = false) := by
    simp [hfail]
  have herase : toolNames.erase "rag_tool" =
      ["direct_llm_tool", "web_search_tool"] := rfl
  have htr : (generate_final_response_t rag dir web s).2 =
      (tryFallbacksT rag dir web s "rag_tool"
        ["direct_llm_tool", "web_search_tool"]).2 := by
    cases hb : (tryFallbacksT rag dir web s "rag_tool"
        ["direct_llm_tool", "web_search_tool"]).1 with
    | some st =>
      simp [generate_final_response_t, hfail, hsel, herase, hb]
    | none =>
      simp [generate_final_response_t, hfail, hsel, herase, hb]
  have hdisj : (generate_final_response_t rag dir web s).2 = ["direct_llm_tool"] ∨
      (generate_final_response_t rag dir web s).2 =
        ["direct_llm_tool", "web_search_tool"] := by
    rw [htr]
    by_cases hc1 : ((runTool rag dir web "direct_llm_tool"
        { s with selected_tool := some "direct_llm_tool",
                 tool_failed := some false }).tool_failed.getD true = false ∧
        (runTool rag dir web "direct_llm_tool"
        { s with selected_tool := some "direct_llm_tool",
                 tool_failed := some false }).response.isSome = true)
    · left
      simp only [tryFallbacksT, if_pos hc1]
    · right
      simp only [tryFallbacksT, if_neg hc1]
      split <;> rfl
  refine ⟨hdisj, ?_⟩
  rcases hdisj with h | h <;> rw [h] <;> decide

/-- **C2, witness**: a concrete rag-selected failed state with three
concrete failing tools; the executed-fallback trace is exactly
`["direct_llm_tool", "web_search_tool"]` and `rag_tool` is not in it. -/
theorem router_rag_failed_fallback_order_witness :
    ((generate_final_response_t (fun s => { s with tool_failed := some true })
        (fun s => { s with tool_failed := some true })
        (fun s => { s with tool_failed := some true })
        ⟨"q", [], [], some "rag_tool", none, none, none, some true⟩).2 =
        ["direct_llm_tool"] ∨
     (generate_final_response_t (fun s => { s with tool_failed := some true })
        (fun s => { s with tool_failed := some true })
        (fun s => { s with tool_failed := some true })
        ⟨"q", [], [], some "rag_tool", none, none, none, some true⟩).2 =
        ["direct_llm_tool", "web_search_tool"]) ∧
    "rag_tool" ∉ (generate_final_response_t
        (fun s => { s with tool_failed := some true })
        (fun s => { s with tool_failed := some true })
        (fun s => { s with tool_failed := some true })
        ⟨"q", [], [], some "rag_tool", none, none, none, some true⟩).2 :=
  router_rag_failed_fallback_order _ _ _ _ rfl rfl

/-! ## C9 — successful states pass through the finalize step -/

/-- **C9.**  A state entering the finalize step with
`tool_failed = False` and a response present is returned unchanged:
response, source and `tool_failed` are all preserved (indeed the whole
state is). -/
theorem router_finalize_passthrough
    (rag dir web : AgentState → AgentState) (s : AgentState)
    (h1 : s.tool_failed = some false) (h2 : s.response.isSome) :
    generate_final_response rag dir web s = s := by
  simp [generate_final_response, generate_final_response_t, h1, h2]

/-! ## String helper lemmas for the mapper -/

theorem endsWith_dropRight_append {F suf : String} (h : pyEndsWith F suf = true) :
    pyDropRight F suf.toList.length ++ suf = F := by
  unfold pyEndsWith at h
  rw [List.isSuffixOf_iff_suffix] at h
  obtain ⟨pre, hpre⟩ := h
  apply String.ext
  rw [String.data_append]
  show F.toList.take (F.toList.length - suf.toList.length) ++ suf.data = F.data
  have h1 : F.toList.take (F.toList.length - suf.toList.length) = pre := by
    rw [← hpre, List.length_append]
    have h2 : pre.length + suf.toList.length - suf.toList.length = pre.length := by
      omega
    rw [h2, List.take_left]
  rw [h1]
  exact hpre

theorem append_right_ne_of_ne (a : String) {b c : String} (h : b ≠ c) :
    a ++ b ≠ a ++ c := by
  intro hc
  apply h
  apply String.ext
  have hd := congrArg String.data hc
  rw [String.data_append, String.data_append] at hd
  exact List.append_cancel_left hd

/-! ## C5 — name splitting in `map_extracted_data` -/

/-- **C5.**  When the winning field name ends in `FirstName` and the
(dict-shaped) value splits into more than one whitespace-separated
word, the output maps the `...FirstName` field to all words but the
last joined by spaces and the parallel `...LastName` field (shared
prefix) to the last word, each carrying the original reasoning with the
appended `"(first name)"` / `"(last name)"` note; a single-word value
is kept as-is under the `...FirstName` target and no `...LastName`
field is created. -/
theorem mapper_firstname_split
    (k : String) (d : FieldData) (dt : Option String) (ctx : Option ContextData)
    (F : String) (c : ℚ)
    (hmeta : pyStartsWith k "_" = false)
    (hbest : (get_field_mapping k (.data d) dt ctx).head? = some (F, c))
    (hc : c ≥ 0.5)
    (hF : pyEndsWith F "FirstName" = true) :
    (1 < (pySplit d.value).length →
      map_extracted_data [(k, .data d)] dt ctx =
        [(F, .data ⟨String.intercalate " " (pySplit d.value).dropLast,
            some ((d.reasoning.getD "Split from full name") ++ " (first name)")⟩),
         (pyDropRight F 9 ++ "LastName",
          .data ⟨(pySplit d.value).getLast?.getD "",
            some ((d.reasoning.getD "Split from full name") ++ " (last name)")⟩)]) ∧
    ((pySplit d.value).length = 1 →
      map_extracted_data [(k, .data d)] dt ctx = [(F, .data d)]) := by
  have hkey : pyDropRight F 9 ++ "FirstName" = F :=
    endsWith_dropRight_append hF
  have hne : pyDropRight F 9 ++ "FirstName" ≠ pyDropRight F 9 ++ "LastName" :=
    append_right_ne_of_ne _ (by decide)
  constructor
  · intro hlen
    simp only [map_extracted_data, List.foldl_cons, List.foldl_nil, processEntry,
      hmeta, Bool.false_eq_true, if_false, hbest, if_pos hc, hF, if_pos hlen,
      if_true, dinsert]
    rw [if_neg hne, hkey]
  · intro hlen
    have hnlt : ¬(1 < (pySplit d.value).length) := by omega
    simp only [map_extracted_data, List.foldl_cons, List.foldl_nil, processEntry,
      hmeta, Bool.false_eq_true, if_false, hbest, if_pos hc, hF, if_neg hnlt,
      if_true, dinsert]

/-- **C5, witness**: the key `"name"` with value `"Brian Hughes"` maps
(best match `deceasedFirstName`, confidence `0.584 ≥ 0.5`) to a
first/last-name split. -/
theorem mapper_firstname_split_witness :
    map_extracted_data [("name",
        .data ⟨"Brian Hughes", some "Extracted"⟩)] none none =
      [("deceasedFirstName", .data ⟨"Brian", some "Extracted (first name)"⟩),
       ("deceasedLastName", .data ⟨"Hughes", some "Extracted (last name)"⟩)] := by
  have h := (mapper_firstname_split "name" ⟨"Brian Hughes", some "Extracted"⟩
      none none "deceasedFirstName" (73/125) (by decide)
      (by with_unfolding_all decide) (by with_unfolding_all decide)
      (by decide)).1 (by decide)
  rw [h]
  with_unfolding_all decide

/-! ## C10 — duplicate canonical targets: last write wins -/

/-- **C10.**  When two distinct non-metadata keys both map (confidence
at least `0.5`) to the same canonical field, and the name-splitting
special case fires for neither, the result contains that canonical
field exactly once, holding the later key's value; the earlier key's
value is silently discarded — the result is exactly `[(F, v₂)]`, with
no error or warning entry. -/
theorem mapper_duplicate_target_last_wins
    (k₁ k₂ : String) (v₁ v₂ : ExtVal) (dt : Option String)
    (ctx : Option ContextData) (F : String) (c₁ c₂ : ℚ)
    (hne : k₁ ≠ k₂)
    (hm₁ : pyStartsWith k₁ "_" = false) (hm₂ : pyStartsWith k₂ "_" = false)
    (hb₁ : (get_field_mapping k₁ v₁ dt ctx).head? = some (F, c₁))
    (hc₁ : c₁ ≥ 0.5)
    (hb₂ : (get_field_mapping k₂ v₂ dt ctx).head? = some (F, c₂))
    (hc₂ : c₂ ≥ 0.5)
    (hs₁ : splitGuard F v₁ = false) (hs₂ : splitGuard F v₂ = false) :
    map_extracted_data [(k₁, v₁), (k₂, v₂)] dt ctx = [(F, v₂)] := by
  have step₁ : processEntry dt ctx [] (k₁, v₁) = [(F, v₁)] := by
    cases v₁ with
    | data d =>
      have hF : pyEndsWith F "FirstName" = false := hs₁
      simp only [processEntry, hm₁, Bool.false_eq_true, if_false, hb₁,
        if_pos hc₁, hF, dinsert]
    | raw s =>
      simp only [processEntry, hm₁, Bool.false_eq_true, if_false, hb₁,
        if_pos hc₁, dinsert]
  have step₂ : processEntry dt ctx [(F, v₁)] (k₂, v₂) = [(F, v₂)] := by
    cases v₂ with
    | data d =>
      have hF : pyEndsWith F "FirstName" = false := hs₂
      simp only [processEntry, hm₂, Bool.false_eq_true, if_false, hb₂,
        if_pos hc₂, hF, dinsert, if_pos rfl, if_true]
    | raw s =>
      simp only [processEntry, hm₂, Bool.false_eq_true, if_false, hb₂,
        if_pos hc₂, dinsert, if_pos rfl, if_true]
  simp only [map_extracted_data, List.foldl_cons, List.foldl_nil, step₁, step₂]

/-- **C10, witness**: `"name"` and `"given name"` both map to
`deceasedFirstName` with confidence `0.584`; the output holds the later
key's value only. -/
theorem mapper_duplicate_target_last_wins_witness :
    map_extracted_data [("name", .raw "Brian"), ("given name", .raw "Bob")]
      none none = [("deceasedFirstName", .raw "Bob")] :=
  mapper_duplicate_target_last_wins "name" "given name" (.raw "Brian")
    (.raw "Bob") none none "deceasedFirstName" (73/125) (73/125)
    (by decide) (by decide) (by decide)
    (by with_unfolding_all decide) (by with_unfolding_all decide)
    (by with_unfolding_all decide) (by with_unfolding_all decide)
    (by decide) (by decide)

/-! ## Confidence bounds for the semantic field matcher -/

theorem section_context_relevance_le (nk : String) (sec : FormSection) :
    section_context_relevance nk sec ≤ 0.8 := by
  unfold section_context_relevance
  have hfold : ∀ (l : List String) (m : ℚ), m ≤ 0.8 →
      l.foldl (fun m cxt =>
        let nc := normalize_text cxt
        if strContains nk nc then max m 0.8
        else if strContains nc nk then max m 0.6 else m) m ≤ 0.8 := by
    intro l
    induction l with
    | nil => intro m hm; exact hm
    | cons x xs ih =>
      intro m hm
      simp only [List.foldl_cons]
      apply ih
      split
      · exact max_le hm (by norm_num)
      · split
        · exact max_le hm (by norm_num)
        · exact hm
  exact hfold _ 0 (by norm_num)

theorem section_title_relevance_le (nk : String) (sec : FormSection) :
    section_title_relevance nk sec ≤ 0.8 := by
  unfold section_title_relevance
  split
  · rename_i hcard
    set kws := (pySplit nk).toFinset with hk
    set tws := (pySplit (normalize_text sec.title)).toFinset with ht
    have h1 : (kws ∩ tws).card ≤ kws.card :=
      Finset.card_le_card (Finset.inter_subset_left)
    have h2 : (kws ∩ tws).card ≤ tws.card :=
      Finset.card_le_card (Finset.inter_subset_right)
    have hone : 1 ≤ (kws ∩ tws).card := Nat.one_le_iff_ne_zero.mpr hcard
    have hmin : ((kws ∩ tws).card : ℚ) ≤
        min (kws.card : ℚ) (tws.card : ℚ) :=
      le_min (by exact_mod_cast h1) (by exact_mod_cast h2)
    have hpos : 0 < min (kws.card : ℚ) (tws.card : ℚ) := by
      apply lt_min
      · exact_mod_cast lt_of_lt_of_le Nat.zero_lt_one (le_trans hone h1)
      · exact_mod_cast lt_of_lt_of_le Nat.zero_lt_one (le_trans hone h2)
    have hratio : ((kws ∩ tws).card : ℚ) /
        min (kws.card : ℚ) (tws.card : ℚ) ≤ 1 := by
      rw [div_le_one hpos]
      exact hmin
    calc 0.3 * ((kws ∩ tws).card : ℚ) / min (kws.card : ℚ) (tws.card : ℚ)
        = 0.3 * (((kws ∩ tws).card : ℚ) /
            min (kws.card : ℚ) (tws.card : ℚ)) := by
          rw [mul_div_assoc]
      _ ≤ 0.3 * 1 := by
          apply mul_le_mul_of_nonneg_left hratio
          norm_num
      _ ≤ 0.8 := by norm_num
  · norm_num

theorem section_relevance_le (nk : String) (sec : FormSection) :
    calculate_section_relevance nk sec ≤ 0.8 := by
  unfold calculate_section_relevance
  apply max_le (by norm_num)
  split
  · exact section_title_relevance_le nk sec
  · exact section_context_relevance_le nk sec

theorem section_relevance_nonneg (nk : String) (sec : FormSection) :
    0 ≤ calculate_section_relevance nk sec := by
  unfold calculate_section_relevance
  exact le_trans (by norm_num) (le_max_left 0.1 _)

theorem conf_after_label_bounds (nk : String) (f : FormField) :
    0 ≤ conf_after_label nk f ∧ conf_after_label nk f ≤ 0.8 := by
  unfold conf_after_label
  split <;> constructor <;> norm_num

theorem conf_after_semantic_bounds (nk : String) (f : FormField) :
    0 ≤ conf_after_semantic nk f ∧ conf_after_semantic nk f ≤ 0.8 := by
  obtain ⟨h0, h1⟩ := conf_after_label_bounds nk f
  unfold conf_after_semantic
  split
  · exact ⟨le_trans h0 (le_max_left _ _), max_le h1 (by norm_num)⟩
  · exact ⟨h0, h1⟩

theorem conf_after_type_bounds (nk : String) (v : ExtVal) (f : FormField) :
    0 ≤ conf_after_type nk v f ∧ conf_after_type nk v f ≤ 0.9 := by
  obtain ⟨h0, h1⟩ := conf_after_semantic_bounds nk f
  unfold conf_after_type
  split
  · constructor <;> linarith
  · constructor <;> linarith

theorem apply_context_boosts_bounds {base : ℚ} (nk : String) (v : ExtVal)
    (fn : String) (cd : ContextData) (h0 : 0 ≤ base) (h1 : base ≤ 1) :
    0 ≤ apply_context_boosts base nk v fn cd ∧
    apply_context_boosts base nk v fn cd ≤ 1 := by
  unfold apply_context_boosts
  split
  · exact ⟨le_min (by norm_num) (by linarith), min_le_left _ _⟩
  · split
    · exact ⟨le_min (by norm_num) (by linarith), min_le_left _ _⟩
    · exact ⟨h0, h1⟩

theorem apply_document_type_boosts_bounds {base : ℚ} (fn dt : String)
    (h0 : 0 ≤ base) (h1 : base ≤ 1) :
    0 ≤ apply_document_type_boosts base fn dt ∧
    apply_document_type_boosts base fn dt ≤ 1 := by
  unfold apply_document_type_boosts
  split
  · exact ⟨le_min (by norm_num) (by linarith), min_le_left _ _⟩
  · exact ⟨h0, h1⟩

theorem conf_after_context_bounds (nk : String) (v : ExtVal) (f : FormField)
    (ctx : Option ContextData) :
    0 ≤ conf_after_context nk v f ctx ∧ conf_after_context nk v f ctx ≤ 1 := by
  obtain ⟨h0, h1⟩ := conf_after_type_bounds nk v f
  unfold conf_after_context
  cases ctx with
  | none => exact ⟨h0, by linarith⟩
  | some cd => exact apply_context_boosts_bounds nk v f.name cd h0 (by linarith)

theorem conf_after_doc_bounds (nk : String) (v : ExtVal) (f : FormField)
    (ctx : Option ContextData) (dt : Option String) :
    0 ≤ conf_after_doc nk v f ctx dt ∧ conf_after_doc nk v f ctx dt ≤ 1 := by
  obtain ⟨h0, h1⟩ := conf_after_context_bounds nk v f ctx
  unfold conf_after_doc
  split
  · exact apply_document_type_boosts_bounds _ _ h0 h1
  · exact ⟨h0, h1⟩

/-- Exact normalized-name match short-circuits to confidence `1`,
whatever the value, the document type, the context, or the section. -/
theorem conf_exact {nk : String} {f : FormField} (h : nk = normalize_text f.name)
    (v : ExtVal) (sec : FormSection) (dt : Option String)
    (ctx : Option ContextData) :
    calculate_field_match_confidence nk v f sec dt ctx = 1 := by
  unfold calculate_field_match_confidence
  rw [if_pos h]

theorem conf_le_one (nk : String) (v : ExtVal) (f : FormField)
    (sec : FormSection) (dt : Option String) (ctx : Option ContextData) :
    calculate_field_match_confidence nk v f sec dt ctx ≤ 1 := by
  unfold calculate_field_match_confidence
  split
  · exact le_refl 1
  · exact min_le_left _ _

/-- A non-exact match never reaches confidence `1`: the staged base is
at most `1` and the section scaling factor is at most
`0.7 + 0.3 × 0.8 = 0.94`. -/
theorem conf_lt_one_of_ne {nk : String} {f : FormField}
    (hne : nk ≠ normalize_text f.name) (v : ExtVal) (sec : FormSection)
    (dt : Option String) (ctx : Option ContextData) :
    calculate_field_match_confidence nk v f sec dt ctx ≤ 0.94 := by
  unfold calculate_field_match_confidence
  rw [if_neg hne]
  refine le_trans (min_le_right _ _) ?_
  obtain ⟨hb0, hb1⟩ := conf_after_doc_bounds nk v f ctx dt
  have hr1 := section_relevance_le nk sec
  have hr0 := section_relevance_nonneg nk sec
  have hs1 : 0.7 + 0.3 * calculate_section_relevance nk sec ≤ 0.94 := by
    linarith
  have hs0 : (0 : ℚ) ≤ 0.7 + 0.3 * calculate_section_relevance nk sec := by
    linarith
  calc conf_after_doc nk v f ctx dt *
        (0.7 + 0.3 * calculate_section_relevance nk sec)
      ≤ 1 * 0.94 := mul_le_mul hb1 hs1 hs0 (by norm_num)
    _ = 0.94 := by norm_num

/-! ## Sorted-match machinery for `get_field_mapping` -/

theorem mem_of_head?_eq {α : Type} {l : List α} {a : α} (h : l.head? = some a) :
    a ∈ l := by
  cases l with
  | nil => simp at h
  | cons b t =>
    rw [List.head?_cons] at h
    cases h
    exact List.mem_cons_self _ _

theorem mem_fieldMatches_iff {nk : String} {v : ExtVal} {sec : FormSection}
    {dt : Option String} {ctx : Option ContextData} {p : String × ℚ} :
    p ∈ sec.fields.filterMap (fun f =>
        let c := calculate_field_match_confidence nk v f sec dt ctx
        if c > 0 then some (f.name, c) else none) ↔
      ∃ f ∈ sec.fields,
        0 < calculate_field_match_confidence nk v f sec dt ctx ∧
        p = (f.name, calculate_field_match_confidence nk v f sec dt ctx) := by
  rw [List.mem_filterMap]
  constructor
  · rintro ⟨f, hf, hsome⟩
    have hsome' : (if calculate_field_match_confidence nk v f sec dt ctx > 0 then
        some (f.name, calculate_field_match_confidence nk v f sec dt ctx)
      else none) = some p := hsome
    by_cases hc : calculate_field_match_confidence nk v f sec dt ctx > 0
    · rw [if_pos hc] at hsome'
      cases hsome'
      exact ⟨f, hf, hc, rfl⟩
    · rw [if_neg hc] at hsome'
      exact absurd hsome' (by simp)
  · rintro ⟨f, hf, hc, rfl⟩
    refine ⟨f, hf, ?_⟩
    show (if calculate_field_match_confidence nk v f sec dt ctx > 0 then
        some (f.name, calculate_field_match_confidence nk v f sec dt ctx)
      else none) = some (f.name, calculate_field_match_confidence nk v f sec dt ctx)
    rw [if_pos hc]

theorem mem_matchesFor_iff {key : String} {v : ExtVal} {dt : Option String}
    {ctx : Option ContextData} {p : String × ℚ} :
    p ∈ matchesFor key v dt ctx ↔
      ∃ sec ∈ filteredSections dt, ∃ f ∈ sec.fields,
        0 < calculate_field_match_confidence (normalize_text key) v f sec dt ctx ∧
        p = (f.name,
          calculate_field_match_confidence (normalize_text key) v f sec dt ctx) := by
  unfold matchesFor
  rw [List.mem_flatMap]
  constructor
  · rintro ⟨sec, hsec, hin⟩
    obtain ⟨f, hf, hc, hp⟩ := mem_fieldMatches_iff.mp hin
    exact ⟨sec, hsec, f, hf, hc, hp⟩
  · rintro ⟨sec, hsec, f, hf, hc, hp⟩
    exact ⟨sec, hsec, mem_fieldMatches_iff.mpr ⟨f, hf, hc, hp⟩⟩

/-- Every member of the ranked list is bounded by the head's
confidence (the list is sorted descending). -/
theorem head_ge_of_mem {key : String} {v : ExtVal} {dt : Option String}
    {ctx : Option ContextData} {p : String × ℚ}
    (hp : p ∈ get_field_mapping key v dt ctx) :
    ∃ h, (get_field_mapping key v dt ctx).head? = some h ∧ p.2 ≤ h.2 := by
  have hsorted : (get_field_mapping key v dt ctx).Sorted confGE :=
    List.sorted_insertionSort confGE _
  cases hL : get_field_mapping key v dt ctx with
  | nil => rw [hL] at hp; simp at hp
  | cons h t =>
    refine ⟨h, rfl, ?_⟩
    rw [hL] at hp hsorted
    rcases List.mem_cons.mp hp with rfl | hmem
    · exact le_refl _
    · exact (List.pairwise_cons.mp hsorted).1 p hmem

/-- A field of an unfiltered section whose name *is* the key forces the
head of the ranked list to confidence at least `1`. -/
theorem head_ge_one_of_included {key : String} {v : ExtVal} {dt : Option String}
    {ctx : Option ContextData} {sec : FormSection} {f : FormField}
    (hsec : sec ∈ filteredSections dt) (hf : f ∈ sec.fields)
    (hkey : normalize_text key = normalize_text f.name) :
    ∃ h, (get_field_mapping key v dt ctx).head? = some h ∧ 1 ≤ h.2 := by
  have hconf : calculate_field_match_confidence (normalize_text key) v f sec dt
      ctx = 1 := conf_exact hkey v sec dt ctx
  have hmem : (f.name, (1 : ℚ)) ∈ matchesFor key v dt ctx := by
    rw [mem_matchesFor_iff]
    exact ⟨sec, hsec, f, hf, by rw [hconf]; norm_num, by rw [hconf]⟩
  have hmem' : (f.name, (1 : ℚ)) ∈ get_field_mapping key v dt ctx := by
    unfold get_field_mapping
    rw [List.mem_insertionSort]
    exact hmem
  obtain ⟨h, hh, hle⟩ := head_ge_of_mem hmem'
  exact ⟨h, hh, hle⟩

/-- The head of a non-empty ranked list names a field of an unfiltered
section. -/
theorem head_name_included {key : String} {v : ExtVal} {dt : Option String}
    {ctx : Option ContextData} {p : String × ℚ}
    (h : (get_field_mapping key v dt ctx).head? = some p) :
    ∃ sec ∈ filteredSections dt, ∃ f ∈ sec.fields, f.name = p.1 := by
  have hmem : p ∈ get_field_mapping key v dt ctx := mem_of_head?_eq h
  rw [get_field_mapping, List.mem_insertionSort, mem_matchesFor_iff] at hmem
  obtain ⟨sec, hsec, f, hf, _, hp⟩ := hmem
  exact ⟨sec, hsec, f, hf, by rw [hp]⟩

/-! ## Schema facts (decided on the concrete default schema) -/

/-- Distinct field names of the default schema stay distinct after
normalization; equivalently, an entry of normalized-name equality pins
down the field name. -/
theorem schema_norm_name_inj :
    ∀ sec ∈ form_schema, ∀ f ∈ sec.fields,
      ∀ sec' ∈ form_schema, ∀ g ∈ sec'.fields,
        normalize_text f.name = normalize_text g.name → f.name = g.name := by
  decide

/-- Every `...FirstName` field of the default schema has its
`...LastName` sibling in the same section. -/
theorem schema_firstname_sibling :
    ∀ sec ∈ form_schema, ∀ f ∈ sec.fields,
      pyEndsWith f.name "FirstName" = true →
        ∃ g ∈ sec.fields, g.name = pyDropRight f.name 9 ++ "LastName" := by
  decide

/-! ## C3 — exact match: confidence 1.0, short-circuit, top result -/

/-- **C3, counterexample.**  The claim omits the document-type section
filter: the schema holds a field literally named `funeralDirector`, the
candidate key `"funeralDirector"` normalizes to that field's normalized
name, yet with `document_type = "benefit_letter"` every schema section
is filtered out and the ranked list is empty — the field receives no
confidence at all and is not the top result. -/
theorem mapper_exact_match_c3_counterexample :
    (∃ sec ∈ form_schema, ∃ f ∈ sec.fields, f.name = "funeralDirector" ∧
        normalize_text "funeralDirector" = normalize_text f.name) ∧
    get_field_mapping "funeralDirector" (.raw "Smith") (some "benefit_letter")
      none = [] := by
  exact ⟨by decide, by with_unfolding_all decide⟩

/-- **C3 (amended).**  For every candidate key whose normalized form
equals the normalized form of a schema field's name, the matcher
assigns that field confidence exactly `1.0`, short-circuiting before
any bonus or section scaling (the confidence is `1` for *every*
document type and context); and provided the document-type filter does
not discard the field's section — in particular whenever no document
type is supplied — that field is the top (first) entry of the ranked
list, with confidence exactly `1`. -/
theorem mapper_exact_match_c3_amended
    (key : String) (v : ExtVal) (ctx : Option ContextData)
    (sec : FormSection) (f : FormField)
    (hsec : sec ∈ form_schema) (hf : f ∈ sec.fields)
    (hkey : normalize_text key = normalize_text f.name) :
    (∀ dt : Option String,
        calculate_field_match_confidence (normalize_text key) v f sec dt ctx = 1) ∧
    (get_field_mapping key v none ctx).head? = some (f.name, 1) := by
  refine ⟨fun dt => conf_exact hkey v sec dt ctx, ?_⟩
  have hsec' : sec ∈ filteredSections none :=
    List.mem_filter.mpr ⟨hsec, by simp [optTruthy]⟩
  obtain ⟨h, hh, h1⟩ := @head_ge_one_of_included _ v _ ctx _ _ hsec' hf hkey
  have hmemh : h ∈ get_field_mapping key v none ctx := mem_of_head?_eq hh
  rw [get_field_mapping, List.mem_insertionSort, mem_matchesFor_iff] at hmemh
  obtain ⟨sec₂, hsec₂, g, hg, hpos, heq⟩ := hmemh
  have hle1 : h.2 ≤ 1 := by
    rw [heq]
    exact conf_le_one _ v g sec₂ none ctx
  have h2eq : h.2 = 1 := le_antisymm hle1 h1
  have hgex : normalize_text key = normalize_text g.name := by
    by_contra hneg
    have hbound := conf_lt_one_of_ne hneg v sec₂ none ctx
    rw [heq] at h2eq
    simp only at h2eq
    rw [h2eq] at hbound
    norm_num at hbound
  have hnames : g.name = f.name :=
    schema_norm_name_inj sec₂ (List.mem_of_mem_filter hsec₂) g hg sec hsec f hf
      (by rw [← hgex, hkey])
  have hhval : h = (f.name, 1) := by
    have h1eq : h.1 = f.name := by rw [heq]; simpa using hnames
    exact Prod.ext h1eq h2eq
  rw [hhval] at hh
  exact hh

/-- **C3, witness** for the amended theorem: the key
`"funeralDirector"` against the schema's `funeralDirector` field gives
confidence `1` (also under a document type, showing the
short-circuit), and tops the ranked list when no document type is
supplied. -/
theorem mapper_exact_match_c3_amended_witness :
    calculate_field_match_confidence (normalize_text "funeralDirector")
      (.raw "Smith")
      ((form_schema.get ⟨2, by decide⟩).fields.get ⟨0, by decide⟩)
      (form_schema.get ⟨2, by decide⟩)
      (some "death_certificate") none = 1 ∧
    (get_field_mapping "funeralDirector" (.raw "Smith") none none).head? =
      some ("funeralDirector", 1) :=
  ⟨(mapper_exact_match_c3_amended "funeralDirector" (.raw "Smith") none
      (form_schema.get ⟨2, by decide⟩)
      ((form_schema.get ⟨2, by decide⟩).fields.get ⟨0, by decide⟩)
      (by decide) (by decide) (by decide)).1 (some "death_certificate"),
   (mapper_exact_match_c3_amended "funeralDirector" (.raw "Smith") none
      (form_schema.get ⟨2, by decide⟩)
      ((form_schema.get ⟨2, by decide⟩).fields.get ⟨0, by decide⟩)
      (by decide) (by decide) (by decide)).2⟩

/-! ## C4 — keys below the acceptance threshold pass through -/

theorem dlookup_dinsert_self (k : String) (v : ExtVal) :
    ∀ acc, dlookup k (dinsert k v acc) = some v := by
  intro acc
  induction acc with
  | nil => simp [dinsert, dlookup]
  | cons e rest ih =>
    obtain ⟨k', v'⟩ := e
    by_cases h : k' = k
    · simp [dinsert, dlookup, h]
    · simp [dinsert, dlookup, h, ih]

theorem dlookup_dinsert_ne {k k' : String} (h : k' ≠ k) (v : ExtVal) :
    ∀ acc, dlookup k (dinsert k' v acc) = dlookup k acc := by
  intro acc
  induction acc with
  | nil => simp [dinsert, dlookup, h]
  | cons e rest ih =>
    obtain ⟨a, b⟩ := e
    by_cases ha : a = k'
    · subst ha
      simp [dinsert, dlookup, h]
    · simp [dinsert, dlookup, ha, ih]

/-- At a pass-through entry (no candidates, or best confidence below
`0.5`) the loop iteration is exactly a dict write under the original
key. -/
theorem processEntry_weak_step
    (dt : Option String) (ctx : Option ContextData) (k : String) (v : ExtVal)
    (hmeta : pyStartsWith k "_" = false)
    (hweak : ∀ F c,
      (get_field_mapping k v dt ctx).head? = some (F, c) → c < 0.5)
    (acc : List (String × ExtVal)) :
    processEntry dt ctx acc (k, v) = dinsert k v acc := by
  cases hh : (get_field_mapping k v dt ctx).head? with
  | none =>
    simp only [processEntry, hmeta, Bool.false_eq_true, if_false, hh]
  | some p =>
    have hlt := hweak p.1 p.2 hh
    simp only [processEntry, hmeta, Bool.false_eq_true, if_false, hh,
      if_neg (not_le.mpr hlt)]

/-- The no-clobber core: a later loop iteration for a different key
never writes the pass-through key `k`.  A mapped write targets the name
of a field of an unfiltered section (or, for a split, its `LastName`
sibling in the same section); were that name `k`, the exact-match rule
would put the head of `k`'s own ranked list at confidence `1`,
contradicting the below-threshold hypothesis. -/
theorem processEntry_preserves_dlookup
    (dt : Option String) (ctx : Option ContextData)
    (k : String) (v : ExtVal)
    (hweak : ∀ F c,
      (get_field_mapping k v dt ctx).head? = some (F, c) → c < 0.5)
    (k' : String) (v' : ExtVal) (hk : k' ≠ k) (acc : List (String × ExtVal)) :
    dlookup k (processEntry dt ctx acc (k', v')) = dlookup k acc := by
  have hnotname : ∀ sec ∈ filteredSections dt, ∀ g ∈ sec.fields, g.name ≠ k := by
    intro sec hsec g hg hgk
    obtain ⟨h, hh, h1⟩ :=
      @head_ge_one_of_included _ v _ ctx _ _ hsec hg (by rw [hgk])
    have hlt := hweak h.1 h.2 (by rw [hh])
    linarith
  by_cases hmb : pyStartsWith k' "_" = true
  · simp only [processEntry, hmb, if_true]
    exact dlookup_dinsert_ne hk v' acc
  · have hmb' : pyStartsWith k' "_" = false := by rwa [Bool.not_eq_true] at hmb
    cases hh : (get_field_mapping k' v' dt ctx).head? with
    | none =>
      simp only [processEntry, hmb', Bool.false_eq_true, if_false, hh]
      exact dlookup_dinsert_ne hk v' acc
    | some p =>
      obtain ⟨sec, hsec, f, hf, hfname⟩ := head_name_included hh
      have hkF : p.1 ≠ k := by
        intro hkp
        exact hnotname sec hsec f hf (hfname.trans hkp)
      by_cases hc : p.2 ≥ (0.5 : ℚ)
      · cases v' with
        | raw s =>
          simp only [processEntry, hmb', Bool.false_eq_true, if_false, hh,
            if_pos hc]
          exact dlookup_dinsert_ne hkF _ acc
        | data d =>
          by_cases hFn : pyEndsWith p.1 "FirstName" = true
          · have hkey1 : pyDropRight p.1 9 ++ "FirstName" = p.1 :=
              endsWith_dropRight_append hFn
            have hkL : pyDropRight p.1 9 ++ "LastName" ≠ k := by
              intro hkl
              obtain ⟨g, hg, hgname⟩ :=
                schema_firstname_sibling sec (List.mem_of_mem_filter hsec) f hf
                  (by rw [hfname]; exact hFn)
              have hgk : g.name = k := by
                rw [hgname, hfname]
                exact hkl
              exact hnotname sec hsec g hg hgk
            by_cases hlen : 1 < (pySplit d.value).length
            · simp only [processEntry, hmb', Bool.false_eq_true, if_false, hh,
                if_pos hc, hFn, if_true, if_pos hlen]
              rw [dlookup_dinsert_ne hkL, hkey1, dlookup_dinsert_ne hkF]
            · simp only [processEntry, hmb', Bool.false_eq_true, if_false, hh,
                if_pos hc, hFn, if_true, if_neg hlen]
              exact dlookup_dinsert_ne hkF _ acc
          · have hFn' : pyEndsWith p.1 "FirstName" = false := by
              rwa [Bool.not_eq_true] at hFn
            simp only [processEntry, hmb', Bool.false_eq_true, if_false, hh,
              if_pos hc, hFn']
            exact dlookup_dinsert_ne hkF _ acc
      · simp only [processEntry, hmb', Bool.false_eq_true, if_false, hh,
          if_neg hc]
        exact dlookup_dinsert_ne hk v' acc

theorem foldl_processEntry_preserves
    (dt : Option String) (ctx : Option ContextData) (k : String) (v : ExtVal)
    (hweak : ∀ F c,
      (get_field_mapping k v dt ctx).head? = some (F, c) → c < 0.5) :
    ∀ (l : List (String × ExtVal)), (∀ e ∈ l, e.1 ≠ k) →
      ∀ acc, dlookup k acc = some v →
        dlookup k (l.foldl (processEntry dt ctx) acc) = some v := by
  intro l
  induction l with
  | nil => intro _ acc h; exact h
  | cons e rest ih =>
    intro hne acc hacc
    rw [List.foldl_cons]
    apply ih (fun e' he' => hne e' (List.mem_cons_of_mem _ he'))
    obtain ⟨k', v'⟩ := e
    rw [processEntry_preserves_dlookup dt ctx k v hweak k' v'
      (hne (k', v') (List.mem_cons_self _ _)) acc]
    exact hacc

/-- **C4.**  For every input to `map_extracted_data` (a dict, so its
keys are distinct), every non-metadata key whose best candidate
confidence is strictly below `0.5` — or that has no candidates at
all — appears in the output under its original key name with its value
unchanged. -/
theorem mapper_low_confidence_passthrough
    (data : List (String × ExtVal)) (dt : Option String)
    (ctx : Option ContextData)
    (hnd : (data.map Prod.fst).Nodup)
    (k : String) (v : ExtVal) (hmem : (k, v) ∈ data)
    (hmeta : pyStartsWith k "_" = false)
    (hweak : ∀ F c,
      (get_field_mapping k v dt ctx).head? = some (F, c) → c < 0.5) :
    dlookup k (map_extracted_data data dt ctx) = some v := by
  obtain ⟨pre, post, rfl⟩ := List.append_of_mem hmem
  unfold map_extracted_data
  rw [List.foldl_append, List.foldl_cons]
  have hkpost : ∀ e ∈ post, e.1 ≠ k := by
    have h1 : ((pre ++ (k, v) :: post).map Prod.fst).Nodup := hnd
    rw [List.map_append] at h1
    have h2 : (((k, v) :: post).map Prod.fst).Nodup := h1.of_append_right
    rw [List.map_cons] at h2
    have h3 := (List.nodup_cons.mp h2).1
    intro e he hek
    apply h3
    have hmap : e.1 ∈ post.map Prod.fst := List.mem_map_of_mem Prod.fst he
    rwa [hek] at hmap
  apply foldl_processEntry_preserves dt ctx k v hweak post hkpost
  rw [processEntry_weak_step dt ctx k v hmeta hweak]
  exact dlookup_dinsert_self k v _

set_option maxRecDepth 8192 in
/-- **C4, witness**: the key `"randomKey"` has best candidate
confidence `0.073 < 0.5` and passes through unchanged. -/
theorem mapper_low_confidence_passthrough_witness :
    dlookup "randomKey"
      (map_extracted_data [("randomKey", .raw "zzz")] none none) =
      some (.raw "zzz") :=
  mapper_low_confidence_passthrough [("randomKey", .raw "zzz")] none none
    (by decide) "randomKey" (.raw "zzz") (by decide) (by decide)
    (fun F c h => by
      rw [show (get_field_mapping "randomKey" (.raw "zzz") none none).head? =
          some ("evidence", 73/1000) from by with_unfolding_all decide] at h
      injection h with h1
      injection h1 with h2 h3
      rw [← h3]
      with_unfolding_all decide)

/-- **C9, witness** at a concrete successful state. -/
theorem router_finalize_passthrough_witness :
    generate_final_response (fun s => { s with tool_failed := some true })
      (fun s => { s with tool_failed := some true })
      (fun s => { s with tool_failed := some true })
      ⟨"q", [], [], some "rag_tool", some "an answer", some "rag", some 0.9,
       some false⟩ =
    ⟨"q", [], [], some "rag_tool", some "an answer", some "rag", some 0.9,
     some false⟩ :=
  router_finalize_passthrough _ _ _ _ rfl rfl

end FEP
